import Mathlib

/-!
Verification of the 4cget image harvester (Go) against its specification.

The Go sources are shallowly embedded: Go strings become `List Char`,
the filesystem becomes the list of existing file paths, and the external
effects (http.Get, os.Stat, os.Create, io.Copy, the Go regexp engine)
become oracle inputs.  A `none` result of a modelled function marks a Go
runtime panic (nil-pointer dereference, slice index out of range, or an
explicit `panic` call), which crashes the whole process.
-/

/-- Go `strings.HasPrefix` over char lists: does `s` start with `pat`? -/
def startsWithL : List Char → List Char → Bool
  | _, [] => true
  | [], _ :: _ => false
  | a :: s, b :: p => a == b && startsWithL s p

/-- Does `pat` occur as a contiguous substring of `s`? -/
def occursL (pat : List Char) : List Char → Bool
  | [] => startsWithL [] pat
  | a :: s => startsWithL (a :: s) pat || occursL pat s

/-- Go `strings.Split(s, pat)[0]` for nonempty `pat`: the prefix of `s`
before the first occurrence of `pat` (all of `s` if `pat` is absent). -/
def splitHeadL (pat : List Char) : List Char → List Char
  | [] => []
  | a :: s => if startsWithL (a :: s) pat then [] else a :: splitHeadL pat s

/-- Go `strings.Replace(s, old, new, 1)`: replace the first occurrence of
`old` in `s` by `new` (here `old` is nonempty in every use). -/
def replaceFirstL (old new : List Char) : List Char → List Char
  | [] => []
  | a :: s =>
    if startsWithL (a :: s) old then new ++ (a :: s).drop old.length
    else a :: replaceFirstL old new s

/-- The last `/`-separated segment of a URL:
Go `parts := strings.Split(link, "/"); parts[len(parts)-1]`. -/
def lastSegmentL (s : List Char) : List Char :=
  (s.reverse.takeWhile (fun c => !(c == '/'))).reverse

/-- `filepath.Join(path, name)` for already-clean path segments, and the
`path + "/" + fileName` concatenation of `downloadFile` (equal strings for
clean inputs). -/
def pathJoin (p n : List Char) : List Char := p ++ "/".toList ++ n

/-- Result of one Go `http.Get` of an asset URL.  `err` is a transport-level
failure, where `http.Get` returns a nil response; the body itself is not
modelled because only `io.Copy`'s outcome (a separate oracle) consumes it. -/
inductive HttpResult where
  | err : HttpResult
  | resp : Nat → HttpResult
deriving DecidableEq

/-- Result of the thread-page `http.Get` plus `io.ReadAll`: `err` is a
transport failure of the GET (nil response); `ok status body` carries the
bytes that `io.ReadAll` produced (its own error is discarded by the code). -/
inductive FetchResult where
  | err : FetchResult
  | ok : Nat → List Char → FetchResult

/-- The `Config` struct of `src/code/4cget.go`. -/
structure Config where
  retryAttempts : Nat
  sleepBetweenAttemptsMs : Nat
deriving DecidableEq

/-- `GlobalConfig = Config{RetryAttempts: 10, SleepBetweenAttempts: 5000ms}`. -/
def GlobalConfig : Config := { retryAttempts := 10, sleepBetweenAttemptsMs := 5000 }

/-- Per-worker oracle for the external effects of one `downloadFile` call. -/
structure WorkerEnv where
  /-- the `os.Stat` inside `fileExists` fails with a non-IsNotExist error
  (e.g. a permission problem) -/
  statErr : Bool
  /-- result of the i-th `http.Get` issued by the retry loop -/
  net : Nat → HttpResult
  /-- whether `os.Create` succeeds -/
  createOk : Bool
  /-- `io.Copy`: `some b` = success after `b` bytes, `none` = write error -/
  copyRes : Option Nat

/-- Outcome classification of one worker invocation (spec's DownloadOutcome
status values; `SkippedUnsupportedSite` never arises inside the worker). -/
inductive Status where
  | downloaded : Status
  | skippedExisting : Status
  | failed : Status
deriving DecidableEq

instance : BEq Status := ⟨fun a b => decide (a = b)⟩

/-- Observable result of one worker invocation: outcome, final file name,
byte count, number of asset GETs issued, number of fixed-delay sleeps. -/
structure WorkerResult where
  status : Status
  fileName : List Char
  bytes : Nat
  attempts : Nat
  sleeps : Nat
deriving DecidableEq

/-- State of the retry loop of `downloadFile` when it exits: the final
value of the `resp` variable (`none` = still the nil pointer), the number
of GETs issued and the number of sleeps performed. -/
structure LoopResult where
  resp : Option Nat
  attempts : Nat
  sleeps : Nat
deriving DecidableEq

/-- The retry loop of `downloadFile` in `src/code/4cget.go`:
`for i < GlobalConfig.RetryAttempts { resp, err = http.Get(url); ... }`.
`i` is the index of the next GET, `remaining` the remaining iterations
(`RetryAttempts - i`), `r` the current value of the `resp` variable.
A transport error overwrites `resp` with nil, sleeps and retries; a 404 or
429 status keeps the response, sleeps and retries; any other status breaks
out of the loop. -/
def retryLoop (net : Nat → HttpResult) : Nat → Nat → Option Nat → LoopResult
  | _, 0, r => { resp := r, attempts := 0, sleeps := 0 }
  | i, remaining + 1, _ =>
    match net i with
    | HttpResult.err =>
      let l := retryLoop net (i + 1) remaining none
      { resp := l.resp, attempts := l.attempts + 1, sleeps := l.sleeps + 1 }
    | HttpResult.resp st =>
      if st ≠ 404 ∧ st ≠ 429 then { resp := some st, attempts := 1, sleeps := 0 }
      else
        let l := retryLoop net (i + 1) remaining (some st)
        { resp := l.resp, attempts := l.attempts + 1, sleeps := l.sleeps + 1 }

/-- `fileExists` of `src/code/4cget.go`: `os.Stat`, `false` on IsNotExist,
`panic(err)` (= `none`) on any other stat error, otherwise `!info.IsDir()`
(directories are not modelled: entries of `fs` are regular files). -/
def fileExists (statErr : Bool) (fs : List (List Char)) (p : List Char) : Option Bool :=
  if statErr then none else some (fs.contains p)

/-- The five binary-unit suffixes of the worker's success log. -/
def suffixes : List (List Char) :=
  ["B".toList, "KB".toList, "MB".toList, "GB".toList, "TB".toList]

/-- Fuel-driven base-1024 integer logarithm (fuel `b` always suffices). -/
def suffixIdxAux : Nat → Nat → Nat
  | 0, _ => 0
  | fuel + 1, n => if n < 1024 then 0 else suffixIdxAux fuel (n / 1024) + 1

/-- The suffix index `int(math.Floor(math.Log(b) / math.Log(1024)))` of the
worker's size log, for `b ≥ 1`: the floor of the base-1024 logarithm of `b`
(`= Nat.log 1024 b`, proved below).  For `b = 0` the Go expression is
`int(-Inf)` and the slice access panics; the model handles `b = 0`
separately at the call site. -/
def suffixIdx (b : Nat) : Nat := suffixIdxAux b b

/-- `downloadFile` of `src/code/4cget.go` (the download worker).  `none`
marks a process-killing panic: the `panic(err)` inside `fileExists`, the
`resp.StatusCode` dereference of a nil response after a loop exhausted by
transport errors, or an out-of-range suffix index in the size log
(`b = 0` or `b ≥ 1024^5`). -/
def downloadFile (cfg : Config) (monitorMode : Bool) (env : WorkerEnv)
    (url fileName path : List Char) (fs : List (List Char)) :
    Option (WorkerResult × List (List Char)) :=
  let filePathName := pathJoin path fileName
  match fileExists env.statErr fs filePathName with
  | none => none
  | some true =>
    some ({ status := Status.skippedExisting, fileName := fileName, bytes := 0,
            attempts := 0, sleeps := 0 }, fs)
  | some false =>
    let l := retryLoop env.net 0 cfg.retryAttempts none
    match l.resp with
    | none => none
    | some st =>
      if st ≠ 200 then
        some ({ status := Status.failed, fileName := fileName, bytes := 0,
                attempts := l.attempts, sleeps := l.sleeps }, fs)
      else
        let filePath := pathJoin path fileName
        if fs.contains filePath = false ∨ monitorMode = false then
          if env.createOk = false then
            some ({ status := Status.failed, fileName := fileName, bytes := 0,
                    attempts := l.attempts, sleeps := l.sleeps }, fs)
          else
            match env.copyRes with
            | none =>
              some ({ status := Status.failed, fileName := fileName, bytes := 0,
                      attempts := l.attempts, sleeps := l.sleeps }, fs.concat filePath)
            | some b =>
              if b = 0 then none
              else
                match suffixes.get? (suffixIdx b) with
                | none => none
                | some _ =>
                  some ({ status := Status.downloaded, fileName := fileName, bytes := b,
                          attempts := l.attempts, sleeps := l.sleeps }, fs.concat filePath)
        else
          some ({ status := Status.skippedExisting, fileName := fileName, bytes := 0,
                  attempts := l.attempts, sleeps := l.sleeps }, fs)

/-- `SiteInfo` of `src/code/4cget.go`.  The compiled regexp `ImgRE` is a Go
standard-library object; its `FindAllStringSubmatch(html, -1)` is modelled
as the oracle function carried here: for a page content it yields, for each
match in order, the submatch list (index 0 the whole match, index 1 the
first capture group). -/
structure SiteInfo where
  ID : List Char
  URL : List Char
  ImgRE : List Char → List (List (List Char))

/-- `siteInfoMap`, parameterised by the two profiles' regex-engine oracles. -/
def siteInfoMap (re4chan retwochen : List Char → List (List (List Char))) :
    List (List Char × SiteInfo) :=
  [("4chan".toList,
    { ID := "4chan".toList, URL := "https://boards.4chan.org".toList, ImgRE := re4chan }),
   ("twochen".toList,
    { ID := "twochen".toList, URL := "https://sturdychan.help/".toList, ImgRE := retwochen })]

/-- Go map read `m[k]` in comma-ok form. -/
def mapLookup (m : List (List Char × SiteInfo)) (k : List Char) : Option SiteInfo :=
  (m.find? (fun p => p.1 == k)).map (fun p => p.2)

/-- The raw link list of `findImages` before deduplication: for each match
take the first capture group `match[1]` and, for the 4chan profile
(`siteID == siteInfoMap["4chan"].ID`), rewrite the protocol-relative prefix
`//i.4cdn.org` to `https://i.4cdn.org`. -/
def extractorRaw (re4chan retwochen : List Char → List (List (List Char)))
    (html siteID : List Char) : List (List Char) :=
  match mapLookup (siteInfoMap re4chan retwochen) siteID with
  | none => []
  | some siteInfo =>
    let fourchanID :=
      ((mapLookup (siteInfoMap re4chan retwochen) "4chan".toList).map SiteInfo.ID).getD []
    (siteInfo.ImgRE html).map (fun mtch =>
      let u := mtch.getD 1 []
      if siteID == fourchanID then
        replaceFirstL "//i.4cdn.org".toList "https://i.4cdn.org".toList u
      else u)

/-- The accumulator recursion of `unique`: `seen` is the key set of the Go
map `u`, which always equals the set of elements already emitted into
`uniqueList`. -/
def uniqueAux (seen : List (List Char)) : List (List Char) → List (List Char)
  | [] => []
  | v :: rest =>
    if seen.contains v then uniqueAux seen rest
    else v :: uniqueAux (seen.concat v) rest

/-- `unique` of `src/code/4cget.go`: remove duplicates, keeping the first
occurrence of each string, in order. -/
def unique (input : List (List Char)) : List (List Char) := uniqueAux [] input

/-- `findImages` of `src/code/4cget.go`: empty on an unknown site ID,
otherwise the transformed first capture groups, deduplicated. -/
def findImages (re4chan retwochen : List Char → List (List (List Char)))
    (html siteID : List Char) : List (List Char) :=
  match mapLookup (siteInfoMap re4chan retwochen) siteID with
  | none => []
  | some _ => unique (extractorRaw re4chan retwochen html siteID)

/-- The fan-out loop of `main`:
`for _, link := range findImages(...) { nameImg := last segment; wg.Add(1);
go downloadFile(&wg, link, nameImg, pathResult); files++ }` followed by
`wg.Wait()`.  The concurrent workers are modelled sequentially in dispatch
order (the claims checked here concern per-worker results and the joined
totals, not interleavings); `envs k` is the oracle of the k-th worker.
`none` marks a worker panic, which kills the whole process. -/
def runWorkers (cfg : Config) (monitorMode : Bool) (envs : Nat → WorkerEnv)
    (path : List Char) :
    List (List Char) → Nat → List (List Char) →
    Option (List WorkerResult × List (List Char))
  | [], _, fs => some ([], fs)
  | link :: rest, k, fs =>
    let nameImg := lastSegmentL link
    match downloadFile cfg monitorMode (envs k) link nameImg path fs with
    | none => none
    | some (r, fs') =>
      match runWorkers cfg monitorMode envs path rest (k + 1) fs' with
      | none => none
      | some (rs, fs'') => some (r :: rs, fs'')

/-- One iteration of the main loop of `src/code/4cget.go` up to `wg.Wait()`:
fetch the thread page (`resp, _ := http.Get(inputUrl)`; a transport error
leaves `resp` nil and `io.ReadAll(resp.Body)` panics, hence `none`), run
the extractor on the body (the page's HTTP status is never inspected),
dispatch one worker per link, and count `files++` once per dispatched link.
Returns the joined worker results, the files-counter increment of this
cycle, and the new filesystem. -/
def runCycle (cfg : Config) (monitorMode : Bool)
    (re4chan retwochen : List Char → List (List (List Char))) (siteID : List Char)
    (pageFetch : FetchResult) (envs : Nat → WorkerEnv) (path : List Char)
    (fs : List (List Char)) :
    Option (List WorkerResult × Nat × List (List Char)) :=
  match pageFetch with
  | FetchResult.err => none
  | FetchResult.ok _ body =>
    let links := findImages re4chan retwochen body siteID
    match runWorkers cfg monitorMode envs path links 0 fs with
    | none => none
    | some (rs, fs') => some (rs, links.length, fs')

/-- The values printed by the countdown
`for i := secondsIteration; i >= 0; i--` — `n, n-1, ..., 1, 0`. -/
def countdownTicks : Nat → List Nat
  | 0 => [0]
  | n + 1 => (n + 1) :: countdownTicks n

/-- Observable events of the orchestrator loop: a thread-page fetch
(start of a cycle; the cycle's workers have all joined before the next
event) and one printed countdown value. -/
inductive RunEvent where
  | pageFetch : RunEvent
  | tick : Nat → RunEvent
deriving DecidableEq

/-- The main loop of `src/code/4cget.go`: run a cycle; if not in monitor
mode, break after this single cycle; otherwise display the countdown and
repeat.  The real monitoring loop is endless, so `fuel` bounds the number
of observed cycles (`fuel = 0` observes nothing).  `cyc` numbers the
cycles, `pageF cyc` is the page-fetch oracle of cycle `cyc` and
`wenvs cyc` its workers' oracles.  Returns the event trace, the final
`files` counter and the final filesystem; `none` marks a panic. -/
def runLoop (cfg : Config) (monitorMode : Bool)
    (re4chan retwochen : List Char → List (List (List Char))) (siteID : List Char)
    (secondsIteration : Nat) (pageF : Nat → FetchResult)
    (wenvs : Nat → Nat → WorkerEnv) (path : List Char) :
    Nat → Nat → List (List Char) → Nat →
    Option (List RunEvent × Nat × List (List Char))
  | 0, _, fs, files => some ([], files, fs)
  | fuel + 1, cyc, fs, files =>
    match runCycle cfg monitorMode re4chan retwochen siteID (pageF cyc) (wenvs cyc)
        path fs with
    | none => none
    | some (_, n, fs') =>
      if monitorMode = false then some ([RunEvent.pageFetch], files + n, fs')
      else
        match runLoop cfg monitorMode re4chan retwochen siteID secondsIteration
            pageF wenvs path fuel (cyc + 1) fs' (files + n) with
        | none => none
        | some (evs, f, fs'') =>
          some (RunEvent.pageFetch ::
                ((countdownTicks secondsIteration).map RunEvent.tick ++ evs), f, fs'')

/-- The extension fallback loop of `downloadFile` in `src/4cget.go` (the
variant whose derived filenames default to `.jpg`):
`for _, ext := range []string{".png", ".webm", ".gif"}`.  `st` is the
status of the response currently held in `resp`; a non-404 candidate
breaks out after renaming the file, a transport error leaves `resp` nil
and the subsequent `resp.StatusCode` dereference panics (`none`). -/
def fallbackLoop (net : List Char → HttpResult) (urldext fileName : List Char) :
    List (List Char) → Nat → Option (Nat × List Char)
  | [], st => some (st, fileName)
  | ext :: rest, _ =>
    match net (urldext ++ ext) with
    | HttpResult.err => none
    | HttpResult.resp s =>
      if s ≠ 404 then some (s, replaceFirstL ".jpg".toList ext fileName)
      else fallbackLoop net urldext fileName rest s

/-- Outcome of the legacy worker of `src/4cget.go`. -/
structure V1Result where
  status : Status
  fileName : List Char
  bytes : Nat
deriving DecidableEq

/-- `downloadFile` of `src/4cget.go`: GET the URL (a nil response panics at
`defer resp.Body.Close()`); on 404 walk the `.jpg → .png → .webm → .gif`
fallback (`urldext := strings.Split(url, ".jpg")[0]`); on a final non-404
status write the file unless it already exists in monitor mode.  `none`
marks a panic: nil response, ignored `os.Create` error (the nil file makes
`io.Copy` return 0 bytes and the size log's suffix index panics), or a byte
count outside `[1, 1024^5)` in the size log. -/
def downloadFileV1 (monitorMode : Bool) (net : List Char → HttpResult)
    (createOk : Bool) (copyBytes : Nat) (url fileName path : List Char)
    (fs : List (List Char)) : Option (V1Result × List (List Char)) :=
  match net url with
  | HttpResult.err => none
  | HttpResult.resp st =>
    let after :=
      if st = 404 then
        fallbackLoop net (splitHeadL ".jpg".toList url) fileName
          [".png".toList, ".webm".toList, ".gif".toList] st
      else some (st, fileName)
    match after with
    | none => none
    | some (st', fn') =>
      if st' ≠ 404 then
        let fp := path ++ "//".toList ++ fn'
        if fs.contains fp = false ∨ monitorMode = false then
          if createOk = false then none
          else
            if copyBytes = 0 then none
            else
              match suffixes.get? (suffixIdx copyBytes) with
              | none => none
              | some _ =>
                some ({ status := Status.downloaded, fileName := fn',
                        bytes := copyBytes }, fs.concat fp)
        else
          some ({ status := Status.skippedExisting, fileName := fn', bytes := 0 }, fs)
      else
        some ({ status := Status.failed, fileName := fn', bytes := 0 }, fs)

/-- Reference definition for the dedup contract (follows the spec's words
"deduplicate by exact URL string while preserving first-seen order"): keep
each element's first occurrence, drop the later ones. -/
def firstOccurs : List (List Char) → List (List Char)
  | [] => []
  | a :: s => a :: firstOccurs (s.filter (fun x => !(x == a)))
termination_by l => l.length
decreasing_by
  simp only [List.length_cons]
  exact Nat.lt_succ_of_le (List.length_filter_le _ _)

/-! Concrete oracles for witnesses and counterexamples. -/

/-- Every asset GET answers 404. -/
def netAll404 : Nat → HttpResult := fun _ => HttpResult.resp 404

/-- Every asset GET fails at the transport level. -/
def netAllErr : Nat → HttpResult := fun _ => HttpResult.err

/-- Every asset GET answers 200. -/
def netAll200 : Nat → HttpResult := fun _ => HttpResult.resp 200

/-- A well-behaved worker environment: first GET succeeds, the file is
created and 100 bytes are copied. -/
def envOk : WorkerEnv :=
  { statErr := false, net := netAll200, createOk := true, copyRes := some 100 }

/-- A worker environment whose every GET answers 404. -/
def env404 : WorkerEnv :=
  { statErr := false, net := netAll404, createOk := true, copyRes := some 100 }

/-- A worker environment whose every GET errors at the transport level. -/
def envErr : WorkerEnv :=
  { statErr := false, net := netAllErr, createOk := true, copyRes := some 100 }

/-- A worker environment whose existence pre-check `os.Stat` fails with a
permission-style error. -/
def envStatErr : WorkerEnv :=
  { statErr := true, net := netAll200, createOk := true, copyRes := some 100 }

/-- A regex-engine oracle finding no match on any content. -/
def reNoMatch : List Char → List (List (List Char)) := fun _ => []

/-- A regex-engine oracle for the 4chan pattern finding two distinct asset
links that differ only in the board segment and therefore share their last
path segment (both match `<a[^>]+href="(//i\.4cdn\.org[^"]+)"`; index 0,
the whole match, is never read by the code). -/
def reTwoSameName : List Char → List (List (List Char)) := fun _ =>
  [["m".toList, "//i.4cdn.org/a/123.jpg".toList],
   ["m".toList, "//i.4cdn.org/b/123.jpg".toList]]

/-- A regex-engine oracle finding one asset link. -/
def reOneLink : List Char → List (List (List Char)) := fun _ =>
  [["m".toList, "//i.4cdn.org/g/7.jpg".toList]]

/-- A regex-engine oracle finding three distinct asset links. -/
def reThreeLinks : List Char → List (List (List Char)) := fun _ =>
  [["m".toList, "//i.4cdn.org/g/1.jpg".toList],
   ["m".toList, "//i.4cdn.org/g/2.png".toList],
   ["m".toList, "//i.4cdn.org/g/3.gif".toList]]

/-- Worker environments for a cycle in which the first worker's existence
pre-check panics and the others behave. -/
def envsFirstStatErr : Nat → WorkerEnv := fun k => if k = 0 then envStatErr else envOk

/-- Every worker of the cycle behaves. -/
def envsAllOk : Nat → WorkerEnv := fun _ => envOk

/-- The canonical result of a worker that skipped an existing file. -/
def skipResult (fn : List Char) : WorkerResult :=
  { status := Status.skippedExisting, fileName := fn, bytes := 0,
    attempts := 0, sleeps := 0 }

/-- Legacy-worker oracle: the `.jpg` target answers 404, the `.png` target
answers 200, everything else 404. -/
def netV1png : List Char → HttpResult := fun u =>
  if u == "u".toList ++ ".png".toList then HttpResult.resp 200 else HttpResult.resp 404

/-- A worker environment that succeeds with an empty body
(`io.Copy` returns 0 bytes). -/
def envZeroCopy : WorkerEnv :=
  { statErr := false, net := netAll200, createOk := true, copyRes := some 0 }

/-- Page-fetch oracle: every cycle's thread-page GET succeeds with an empty
body. -/
def pageAllOk : Nat → FetchResult := fun _ => FetchResult.ok 200 []

/-- Every worker of every cycle behaves. -/
def wenvsAllOk : Nat → Nat → WorkerEnv := fun _ _ => envOk

/-! String helper lemmas. -/

theorem startsWithL_nil (s : List Char) : startsWithL s [] = true := by
  cases s <;> rfl

theorem startsWithL_self_append (pat rest : List Char) :
    startsWithL (pat ++ rest) pat = true := by
  induction pat with
  | nil => exact startsWithL_nil rest
  | cons a p ih => simp [startsWithL, ih]

/-- Expansion of `startsWithL` for a four-character pattern. -/
theorem startsWithL_four (x1 x2 x3 x4 p1 p2 p3 p4 : Char) (t : List Char) :
    startsWithL (x1 :: x2 :: x3 :: x4 :: t) [p1, p2, p3, p4]
      = (x1 == p1 && (x2 == p2 && (x3 == p3 && x4 == p4))) := by
  simp [startsWithL, startsWithL_nil]

/-- `".jpg"` cannot straddle the boundary of `base ++ ".jpg"`: if `base` is
nonempty and does not itself start with `".jpg"`, neither does
`base ++ ".jpg"`. -/
theorem startsWithL_jpg_append (base : List Char) (hne : base ≠ [])
    (h : startsWithL base ".jpg".toList = false) :
    startsWithL (base ++ ".jpg".toList) ".jpg".toList = false := by
  match base with
  | [] => exact absurd rfl hne
  | [a] =>
    show startsWithL (a :: '.' :: 'j' :: 'p' :: 'g' :: []) ['.', 'j', 'p', 'g'] = false
    rw [startsWithL_four]
    simp
  | [a, b] =>
    show startsWithL (a :: b :: '.' :: 'j' :: 'p' :: 'g' :: []) ['.', 'j', 'p', 'g'] = false
    rw [startsWithL_four]
    simp
  | [a, b, c] =>
    show startsWithL (a :: b :: c :: '.' :: 'j' :: 'p' :: 'g' :: []) ['.', 'j', 'p', 'g'] = false
    rw [startsWithL_four]
    simp
  | a :: b :: c :: d :: t =>
    show startsWithL (a :: b :: c :: d :: (t ++ ".jpg".toList)) ['.', 'j', 'p', 'g'] = false
    rw [startsWithL_four]
    rw [show startsWithL (a :: b :: c :: d :: t) ".jpg".toList
          = (a == '.' && (b == 'j' && (c == 'p' && d == 'g'))) from startsWithL_four ..] at h
    exact h

theorem occursL_cons (pat a : _) (s : List Char) :
    occursL pat (a :: s) = (startsWithL (a :: s) pat || occursL pat s) := rfl

/-- `strings.Split(base ++ ".jpg", ".jpg")[0] = base` when `base` does not
contain `".jpg"`. -/
theorem splitHeadL_jpg_append (base : List Char)
    (h : occursL ".jpg".toList base = false) :
    splitHeadL ".jpg".toList (base ++ ".jpg".toList) = base := by
  induction base with
  | nil => decide
  | cons a bs ih =>
    rw [occursL_cons, Bool.or_eq_false_iff] at h
    have hsw : startsWithL ((a :: bs) ++ ".jpg".toList) ".jpg".toList = false :=
      startsWithL_jpg_append (a :: bs) (by simp) h.1
    rw [List.cons_append] at hsw
    rw [List.cons_append, splitHeadL, hsw]
    rw [if_neg Bool.false_ne_true]
    exact congrArg (List.cons a) (ih h.2)

/-- `strings.Replace(base ++ ".jpg", ".jpg", new, 1) = base ++ new` when
`base` does not contain `".jpg"`. -/
theorem replaceFirstL_jpg_append (base new : List Char)
    (h : occursL ".jpg".toList base = false) :
    replaceFirstL ".jpg".toList new (base ++ ".jpg".toList) = base ++ new := by
  induction base with
  | nil =>
    rw [List.nil_append, List.nil_append]
    rw [show (".jpg".toList : List Char) = '.' :: "jpg".toList from rfl, replaceFirstL]
    rw [show startsWithL ('.' :: "jpg".toList) ('.' :: "jpg".toList) = true from by decide]
    simp
  | cons a bs ih =>
    rw [occursL_cons, Bool.or_eq_false_iff] at h
    have hsw : startsWithL ((a :: bs) ++ ".jpg".toList) ".jpg".toList = false :=
      startsWithL_jpg_append (a :: bs) (by simp) h.1
    rw [List.cons_append] at hsw
    rw [List.cons_append, replaceFirstL, hsw]
    rw [if_neg Bool.false_ne_true]
    exact congrArg (List.cons a) (ih h.2)

/-! Lemmas about `unique`. -/

theorem contains_eq_mem (l : List (List Char)) (x : List Char) :
    l.contains x = decide (x ∈ l) := by
  simp [List.contains]

theorem uniqueAux_sublist (l seen : List (List Char)) :
    (uniqueAux seen l).Sublist l := by
  induction l generalizing seen with
  | nil => simp [uniqueAux]
  | cons v rest ih =>
    rw [uniqueAux]
    by_cases h : seen.contains v = true
    · rw [if_pos h]
      exact (ih seen).cons v
    · rw [if_neg h]
      exact (ih (seen.concat v)).cons₂ v

theorem mem_uniqueAux (x : List Char) (l seen : List (List Char)) :
    x ∈ uniqueAux seen l ↔ (x ∈ l ∧ x ∉ seen) := by
  induction l generalizing seen with
  | nil => simp [uniqueAux]
  | cons v rest ih =>
    rw [uniqueAux]
    by_cases h : v ∈ seen
    · rw [if_pos (by simp [contains_eq_mem, h]), ih]
      constructor
      · exact fun hp => ⟨List.mem_cons_of_mem _ hp.1, hp.2⟩
      · rintro ⟨h1, h2⟩
        rcases List.mem_cons.mp h1 with rfl | h1
        · exact absurd h h2
        · exact ⟨h1, h2⟩
    · rw [if_neg (by simp [contains_eq_mem, h]), List.mem_cons, ih,
          List.concat_eq_append]
      constructor
      · rintro (rfl | ⟨h1, h2⟩)
        · exact ⟨List.mem_cons_self _ _, h⟩
        · exact ⟨List.mem_cons_of_mem _ h1, fun hs => h2 (by simp [hs])⟩
      · rintro ⟨h1, h2⟩
        rcases List.mem_cons.mp h1 with h1 | h1
        · exact Or.inl h1
        · by_cases hxv : x = v
          · exact Or.inl hxv
          · refine Or.inr ⟨h1, fun hs => ?_⟩
            rcases List.mem_append.mp hs with hs | hs
            · exact h2 hs
            · exact hxv (List.mem_singleton.mp hs)

theorem uniqueAux_nodup (l seen : List (List Char)) :
    (uniqueAux seen l).Nodup := by
  induction l generalizing seen with
  | nil => simp [uniqueAux]
  | cons v rest ih =>
    rw [uniqueAux]
    by_cases h : seen.contains v = true
    · rw [if_pos h]
      exact ih seen
    · rw [if_neg h]
      refine List.nodup_cons.mpr ⟨fun hmem => ?_, ih (seen.concat v)⟩
      have := (mem_uniqueAux v rest (seen.concat v)).mp hmem
      exact this.2 (by simp [List.concat_eq_append])

theorem uniqueAux_eq_firstOccurs (l seen : List (List Char)) :
    uniqueAux seen l = firstOccurs (l.filter (fun x => !(seen.contains x))) := by
  induction l generalizing seen with
  | nil => simp [uniqueAux, firstOccurs]
  | cons v rest ih =>
    rw [uniqueAux, List.filter_cons]
    by_cases h : v ∈ seen
    · rw [if_pos (by simp [contains_eq_mem, h]),
          if_neg (by simp [contains_eq_mem, h]), ih]
    · rw [if_neg (by simp [contains_eq_mem, h]),
          if_pos (by simp [contains_eq_mem, h]), firstOccurs, List.filter_filter, ih]
      congr 1
      exact congrArg firstOccurs (List.filter_congr (fun x _ => by
        by_cases h1 : x ∈ seen <;> by_cases h2 : x = v <;>
          simp [h1, h2, contains_eq_mem, List.concat_eq_append]))

/-! Lemmas about the size-suffix index. -/

theorem suffixIdxAux_correct (fuel : Nat) :
    ∀ n, 1 ≤ n → n ≤ fuel →
      1024 ^ suffixIdxAux fuel n ≤ n ∧ n < 1024 ^ (suffixIdxAux fuel n + 1) := by
  induction fuel with
  | zero => intro n h1 h2; omega
  | succ f ih =>
    intro n h1 h2
    rw [suffixIdxAux]
    by_cases hlt : n < 1024
    · rw [if_pos hlt]
      constructor
      · simpa using h1
      · simpa using hlt
    · rw [if_neg hlt]
      have hm1 : 1 ≤ n / 1024 := Nat.le_div_iff_mul_le (by norm_num) |>.mpr (by omega)
      have hm2 : n / 1024 ≤ f := by
        have : n / 1024 < n := Nat.div_lt_self (by omega) (by norm_num)
        omega
      obtain ⟨hlo, hhi⟩ := ih (n / 1024) hm1 hm2
      constructor
      · calc 1024 ^ (suffixIdxAux f (n / 1024) + 1)
            = 1024 ^ suffixIdxAux f (n / 1024) * 1024 := by rw [pow_succ]
          _ ≤ (n / 1024) * 1024 := Nat.mul_le_mul_right _ hlo
          _ ≤ n := Nat.div_mul_le_self n 1024
      · calc n < 1024 * (n / 1024 + 1) := Nat.lt_mul_div_succ n (by norm_num)
          _ ≤ 1024 * 1024 ^ (suffixIdxAux f (n / 1024) + 1) := by
              exact Nat.mul_le_mul_left _ hhi
          _ = 1024 ^ (suffixIdxAux f (n / 1024) + 1 + 1) := by ring

theorem suffixIdx_correct (b : Nat) (hb : 1 ≤ b) :
    1024 ^ suffixIdx b ≤ b ∧ b < 1024 ^ (suffixIdx b + 1) :=
  suffixIdxAux_correct b b hb le_rfl

/-- The suffix index is exactly the integer base-1024 logarithm. -/
theorem suffixIdx_eq_log (b : Nat) (hb : 1 ≤ b) :
    suffixIdx b = Nat.log 1024 b := by
  obtain ⟨h1, h2⟩ := suffixIdx_correct b hb
  exact (Nat.log_eq_of_pow_le_of_lt_pow h1 h2).symm

/-- ... and it agrees with `⌊log_1024 b⌋` over the reals, the idealisation
of the Go float expression `math.Floor(math.Log(b) / math.Log(1024))`. -/
theorem suffixIdx_eq_floor_logb (b : Nat) (hb : 1 ≤ b) :
    (suffixIdx b : ℤ) = ⌊Real.logb 1024 (b : ℝ)⌋ := by
  rw [suffixIdx_eq_log b hb]
  rw [show ((1024 : ℝ)) = ((1024 : ℕ) : ℝ) by norm_num]
  rw [Real.floor_logb_natCast (by positivity), Int.log_natCast]

theorem suffixIdx_lt_five (b : Nat) (hb : 1 ≤ b) (hlt : b < 1024 ^ 5) :
    suffixIdx b < 5 := by
  obtain ⟨h1, _⟩ := suffixIdx_correct b hb
  by_contra hge
  push_neg at hge
  have : 1024 ^ 5 ≤ 1024 ^ suffixIdx b :=
    Nat.pow_le_pow_right (by norm_num) hge
  omega

theorem suffixes_get?_isSome_of_lt (i : Nat) (h : i < 5) :
    (suffixes.get? i).isSome = true := by
  interval_cases i <;> rfl

/-! Lemmas about the retry loop. -/

theorem retryLoop_zero (net : Nat → HttpResult) (i : Nat) (r : Option Nat) :
    retryLoop net i 0 r = { resp := r, attempts := 0, sleeps := 0 } := rfl

theorem retryLoop_succ (net : Nat → HttpResult) (i rem : Nat) (r : Option Nat) :
    retryLoop net i (rem + 1) r =
      match net i with
      | HttpResult.err =>
        let l := retryLoop net (i + 1) rem none
        { resp := l.resp, attempts := l.attempts + 1, sleeps := l.sleeps + 1 }
      | HttpResult.resp st =>
        if st ≠ 404 ∧ st ≠ 429 then { resp := some st, attempts := 1, sleeps := 0 }
        else
          let l := retryLoop net (i + 1) rem (some st)
          { resp := l.resp, attempts := l.attempts + 1, sleeps := l.sleeps + 1 } := rfl

theorem retryLoop_all_notfound (net : Nat → HttpResult) :
    ∀ k i r, 1 ≤ k →
      (∀ j, j < k → net (i + j) = HttpResult.resp 404 ∨ net (i + j) = HttpResult.resp 429) →
      ∃ st, (st = 404 ∨ st = 429) ∧
        retryLoop net i k r = { resp := some st, attempts := k, sleeps := k } := by
  intro k
  induction k with
  | zero => intro i r h; omega
  | succ m ih =>
    intro i r _ hnet
    have h0 : net (i + 0) = HttpResult.resp 404 ∨ net (i + 0) = HttpResult.resp 429 :=
      hnet 0 (by omega)
    rw [Nat.add_zero] at h0
    have hshift : ∀ j, j < m →
        net (i + 1 + j) = HttpResult.resp 404 ∨ net (i + 1 + j) = HttpResult.resp 429 := by
      intro j hj
      have := hnet (j + 1) (by omega)
      rwa [show i + (j + 1) = i + 1 + j by omega] at this
    rcases h0 with h0 | h0
    · rw [retryLoop_succ, h0]
      dsimp only
      rw [if_neg (by simp)]
      cases m with
      | zero => exact ⟨404, Or.inl rfl, by rw [retryLoop_zero]⟩
      | succ m' =>
        obtain ⟨st, hst, hrec⟩ := ih (i + 1) (some 404) (by omega) hshift
        exact ⟨st, hst, by rw [hrec]⟩
    · rw [retryLoop_succ, h0]
      dsimp only
      rw [if_neg (by simp)]
      cases m with
      | zero => exact ⟨429, Or.inr rfl, by rw [retryLoop_zero]⟩
      | succ m' =>
        obtain ⟨st, hst, hrec⟩ := ih (i + 1) (some 429) (by omega) hshift
        exact ⟨st, hst, by rw [hrec]⟩

theorem retryLoop_all_err (net : Nat → HttpResult) :
    ∀ k i r, 1 ≤ k → (∀ j, j < k → net (i + j) = HttpResult.err) →
      retryLoop net i k r = { resp := none, attempts := k, sleeps := k } := by
  intro k
  induction k with
  | zero => intro i r h; omega
  | succ m ih =>
    intro i r _ hnet
    have h0 : net i = HttpResult.err := by
      have := hnet 0 (by omega)
      rwa [Nat.add_zero] at this
    rw [retryLoop_succ, h0]
    dsimp only
    cases m with
    | zero => rw [retryLoop_zero]
    | succ m' =>
      rw [ih (i + 1) none (by omega) (fun j hj => by
        have := hnet (j + 1) (by omega)
        rwa [show i + (j + 1) = i + 1 + j by omega] at this)]

/-- A first response outside {404, 429} breaks the loop at once. -/
theorem retryLoop_break (net : Nat → HttpResult) (i k : Nat) (r : Option Nat)
    (st : Nat) (hst : net i = HttpResult.resp st) (h4 : st ≠ 404) (h9 : st ≠ 429) :
    retryLoop net i (k + 1) r = { resp := some st, attempts := 1, sleeps := 0 } := by
  rw [retryLoop_succ, hst]
  dsimp only
  rw [if_pos ⟨h4, h9⟩]

/-! Lemmas about the download worker. -/

theorem downloadFile_skip (cfg : Config) (mm : Bool) (env : WorkerEnv)
    (url fn path : List Char) (fs : List (List Char))
    (hstat : env.statErr = false)
    (hex : fs.contains (pathJoin path fn) = true) :
    downloadFile cfg mm env url fn path fs = some (skipResult fn, fs) := by
  rw [contains_eq_mem] at hex
  simp [downloadFile, fileExists, hstat, contains_eq_mem, hex, skipResult]

theorem downloadFile_notfound_exhaust (cfg : Config) (mm : Bool) (env : WorkerEnv)
    (url fn path : List Char) (fs : List (List Char))
    (hstat : env.statErr = false)
    (hnx : fs.contains (pathJoin path fn) = false)
    (hr : 1 ≤ cfg.retryAttempts)
    (hnet : ∀ j, j < cfg.retryAttempts →
      env.net j = HttpResult.resp 404 ∨ env.net j = HttpResult.resp 429) :
    downloadFile cfg mm env url fn path fs =
      some ({ status := Status.failed, fileName := fn, bytes := 0,
              attempts := cfg.retryAttempts, sleeps := cfg.retryAttempts }, fs) := by
  obtain ⟨st, hst, hloop⟩ := retryLoop_all_notfound env.net cfg.retryAttempts 0 none hr
    (fun j hj => by simpa using hnet j hj)
  have hne : st ≠ 200 := by rcases hst with rfl | rfl <;> decide
  rw [contains_eq_mem] at hnx
  simp [downloadFile, fileExists, hstat, contains_eq_mem, hnx, hloop, hne]

theorem downloadFile_transport_exhaust (cfg : Config) (mm : Bool) (env : WorkerEnv)
    (url fn path : List Char) (fs : List (List Char))
    (hstat : env.statErr = false)
    (hnx : fs.contains (pathJoin path fn) = false)
    (hr : 1 ≤ cfg.retryAttempts)
    (hnet : ∀ j, j < cfg.retryAttempts → env.net j = HttpResult.err) :
    downloadFile cfg mm env url fn path fs = none := by
  have hloop := retryLoop_all_err env.net cfg.retryAttempts 0 none hr
    (fun j hj => by simpa using hnet j hj)
  rw [contains_eq_mem] at hnx
  simp [downloadFile, fileExists, hstat, contains_eq_mem, hnx, hloop]

theorem downloadFile_statErr (cfg : Config) (mm : Bool) (env : WorkerEnv)
    (url fn path : List Char) (fs : List (List Char))
    (hstat : env.statErr = true) :
    downloadFile cfg mm env url fn path fs = none := by
  simp [downloadFile, fileExists, hstat]

theorem downloadFile_mem_of_some (cfg : Config) (mm : Bool) (env : WorkerEnv)
    (url fn path : List Char) (fs : List (List Char)) (r : WorkerResult)
    (fs' : List (List Char))
    (hres : downloadFile cfg mm env url fn path fs = some (r, fs')) :
    (∀ x, x ∈ fs → x ∈ fs') ∧
      (r.status ≠ Status.failed → pathJoin path fn ∈ fs') := by
  by_cases hstat : env.statErr = true
  · rw [downloadFile_statErr cfg mm env url fn path fs hstat] at hres
    exact absurd hres (by simp)
  have hstat' : env.statErr = false := by simpa using hstat
  by_cases hex : fs.contains (pathJoin path fn) = true
  · rw [downloadFile_skip cfg mm env url fn path fs hstat' hex] at hres
    injection hres with h
    injection h with hr hfs
    subst hr
    subst hfs
    refine ⟨fun x hx => hx, fun _ => ?_⟩
    rw [contains_eq_mem] at hex
    simpa using hex
  have hnx : fs.contains (pathJoin path fn) = false := by simpa using hex
  rw [contains_eq_mem] at hnx
  simp only [downloadFile, fileExists, hstat', contains_eq_mem, hnx, Bool.false_eq_true,
    if_false, eq_self_iff_true, true_or, if_true] at hres
  split at hres
  · exact absurd hres (by simp)
  · split at hres
    · injection hres with h
      injection h with hr hfs
      subst hr
      subst hfs
      exact ⟨fun x hx => hx, fun hne => absurd rfl hne⟩
    · split at hres
      · injection hres with h
        injection h with hr hfs
        subst hr
        subst hfs
        exact ⟨fun x hx => hx, fun hne => absurd rfl hne⟩
      · split at hres
        · injection hres with h
          injection h with hr hfs
          subst hr
          subst hfs
          refine ⟨fun x hx => ?_, fun hne => absurd rfl hne⟩
          simp [List.concat_eq_append, hx]
        · split at hres
          · exact absurd hres (by simp)
          · split at hres
            · exact absurd hres (by simp)
            · injection hres with h
              injection h with hr hfs
              subst hr
              subst hfs
              refine ⟨fun x hx => ?_, fun _ => ?_⟩
              · simp [List.concat_eq_append, hx]
              · simp [List.concat_eq_append]

theorem downloadFile_isSome (cfg : Config) (mm : Bool) (env : WorkerEnv)
    (url fn path : List Char) (fs : List (List Char))
    (hstat : env.statErr = false)
    (hresp : (retryLoop env.net 0 cfg.retryAttempts none).resp.isSome = true)
    (hcopy : ∀ b, env.copyRes = some b → 1 ≤ b ∧ b < 1024 ^ 5) :
    (downloadFile cfg mm env url fn path fs).isSome = true := by
  by_cases hex : fs.contains (pathJoin path fn) = true
  · rw [downloadFile_skip cfg mm env url fn path fs hstat hex]
    rfl
  have hnx : fs.contains (pathJoin path fn) = false := by simpa using hex
  rw [contains_eq_mem] at hnx
  obtain ⟨st, hst⟩ := Option.isSome_iff_exists.mp hresp
  simp only [downloadFile, fileExists, hstat, contains_eq_mem, hnx, Bool.false_eq_true,
    if_false, hst]
  split
  · rfl
  · rw [if_pos (Or.inl trivial)]
    split
    · rfl
    · cases hcr : env.copyRes with
      | none => rfl
      | some b =>
        obtain ⟨hb1, hb5⟩ := hcopy b hcr
        have hb0 : ¬ b = 0 := by omega
        obtain ⟨sfx, hsfx⟩ := Option.isSome_iff_exists.mp
          (suffixes_get?_isSome_of_lt (suffixIdx b) (suffixIdx_lt_five b hb1 hb5))
        dsimp only
        rw [if_neg hb0, hsfx]
        rfl

/-! Lemmas about the fan-out/join batch and the cycle. -/

theorem runWorkers_nil (cfg : Config) (mm : Bool) (envs : Nat → WorkerEnv)
    (path : List Char) (k : Nat) (fs : List (List Char)) :
    runWorkers cfg mm envs path [] k fs = some ([], fs) := rfl

theorem runWorkers_cons (cfg : Config) (mm : Bool) (envs : Nat → WorkerEnv)
    (path link : List Char) (rest : List (List Char)) (k : Nat)
    (fs : List (List Char)) :
    runWorkers cfg mm envs path (link :: rest) k fs =
      match downloadFile cfg mm (envs k) link (lastSegmentL link) path fs with
      | none => none
      | some (r, fs') =>
        match runWorkers cfg mm envs path rest (k + 1) fs' with
        | none => none
        | some (rs, fs'') => some (r :: rs, fs'') := rfl

theorem runWorkers_length (cfg : Config) (mm : Bool) (envs : Nat → WorkerEnv)
    (path : List Char) :
    ∀ links k fs rs fs',
      runWorkers cfg mm envs path links k fs = some (rs, fs') →
      rs.length = links.length := by
  intro links
  induction links with
  | nil =>
    intro k fs rs fs' h
    rw [runWorkers_nil] at h
    injection h with h
    injection h with h1 h2
    subst h1
    rfl
  | cons link rest ih =>
    intro k fs rs fs' h
    rw [runWorkers_cons] at h
    cases hd : downloadFile cfg mm (envs k) link (lastSegmentL link) path fs with
    | none => rw [hd] at h; exact absurd h (by simp)
    | some p =>
      obtain ⟨r, fs1⟩ := p
      rw [hd] at h
      dsimp only at h
      cases hw : runWorkers cfg mm envs path rest (k + 1) fs1 with
      | none => rw [hw] at h; exact absurd h (by simp)
      | some q =>
        obtain ⟨rs1, fs2⟩ := q
        rw [hw] at h
        dsimp only at h
        injection h with h
        injection h with h1 h2
        subst h1
        simp [ih (k + 1) fs1 rs1 fs2 hw]

theorem runWorkers_mono (cfg : Config) (mm : Bool) (envs : Nat → WorkerEnv)
    (path : List Char) :
    ∀ links k fs rs fs',
      runWorkers cfg mm envs path links k fs = some (rs, fs') →
      ∀ x, x ∈ fs → x ∈ fs' := by
  intro links
  induction links with
  | nil =>
    intro k fs rs fs' h
    rw [runWorkers_nil] at h
    injection h with h
    injection h with h1 h2
    subst h2
    exact fun x hx => hx
  | cons link rest ih =>
    intro k fs rs fs' h
    rw [runWorkers_cons] at h
    cases hd : downloadFile cfg mm (envs k) link (lastSegmentL link) path fs with
    | none => rw [hd] at h; exact absurd h (by simp)
    | some p =>
      obtain ⟨r, fs1⟩ := p
      rw [hd] at h
      dsimp only at h
      cases hw : runWorkers cfg mm envs path rest (k + 1) fs1 with
      | none => rw [hw] at h; exact absurd h (by simp)
      | some q =>
        obtain ⟨rs1, fs2⟩ := q
        rw [hw] at h
        dsimp only at h
        injection h with h
        injection h with h1 h2
        subst h2
        intro x hx
        exact ih (k + 1) fs1 rs1 fs2 hw x
          ((downloadFile_mem_of_some cfg mm (envs k) link (lastSegmentL link) path
            fs r fs1 hd).1 x hx)

theorem runWorkers_establishes (cfg : Config) (mm : Bool) (envs : Nat → WorkerEnv)
    (path : List Char) :
    ∀ links k fs rs fs',
      runWorkers cfg mm envs path links k fs = some (rs, fs') →
      (∀ r, r ∈ rs → r.status ≠ Status.failed) →
      ∀ link, link ∈ links → pathJoin path (lastSegmentL link) ∈ fs' := by
  intro links
  induction links with
  | nil => intro k fs rs fs' _ _ link hl; exact absurd hl (by simp)
  | cons link rest ih =>
    intro k fs rs fs' h hall l hl
    rw [runWorkers_cons] at h
    cases hd : downloadFile cfg mm (envs k) link (lastSegmentL link) path fs with
    | none => rw [hd] at h; exact absurd h (by simp)
    | some p =>
      obtain ⟨r, fs1⟩ := p
      rw [hd] at h
      dsimp only at h
      cases hw : runWorkers cfg mm envs path rest (k + 1) fs1 with
      | none => rw [hw] at h; exact absurd h (by simp)
      | some q =>
        obtain ⟨rs1, fs2⟩ := q
        rw [hw] at h
        dsimp only at h
        injection h with h
        injection h with h1 h2
        subst h2
        rcases List.mem_cons.mp hl with rfl | hl
        · have hmem := (downloadFile_mem_of_some cfg mm (envs k) l (lastSegmentL l) path
            fs r fs1 hd).2 (hall r (by rw [← h1]; exact List.mem_cons_self _ _))
          exact runWorkers_mono cfg mm envs path rest (k + 1) fs1 rs1 fs2 hw _ hmem
        · exact ih (k + 1) fs1 rs1 fs2 hw
            (fun r' hr' => hall r' (by rw [← h1]; exact List.mem_cons_of_mem _ hr')) l hl

theorem runWorkers_all_exist_skip (cfg : Config) (mm : Bool) (envs : Nat → WorkerEnv)
    (path : List Char) :
    ∀ links k fs,
      (∀ j, (envs j).statErr = false) →
      (∀ link, link ∈ links → pathJoin path (lastSegmentL link) ∈ fs) →
      runWorkers cfg mm envs path links k fs =
        some (links.map (fun l => skipResult (lastSegmentL l)), fs) := by
  intro links
  induction links with
  | nil => intro k fs _ _; rfl
  | cons link rest ih =>
    intro k fs hstat hall
    rw [runWorkers_cons]
    have hex : fs.contains (pathJoin path (lastSegmentL link)) = true := by
      rw [contains_eq_mem]
      simpa using hall link (List.mem_cons_self _ _)
    rw [downloadFile_skip cfg mm (envs k) link (lastSegmentL link) path fs
      (hstat k) hex]
    dsimp only
    rw [ih (k + 1) fs hstat (fun l hl => hall l (List.mem_cons_of_mem _ hl))]
    rfl

theorem runWorkers_isSome (cfg : Config) (mm : Bool) (envs : Nat → WorkerEnv)
    (path : List Char)
    (hgood : ∀ j, (envs j).statErr = false ∧
      (retryLoop (envs j).net 0 cfg.retryAttempts none).resp.isSome = true ∧
      (∀ b, (envs j).copyRes = some b → 1 ≤ b ∧ b < 1024 ^ 5)) :
    ∀ links k fs, (runWorkers cfg mm envs path links k fs).isSome = true := by
  intro links
  induction links with
  | nil => intro k fs; rfl
  | cons link rest ih =>
    intro k fs
    rw [runWorkers_cons]
    obtain ⟨h1, h2, h3⟩ := hgood k
    obtain ⟨p, hp⟩ := Option.isSome_iff_exists.mp
      (downloadFile_isSome cfg mm (envs k) link (lastSegmentL link) path fs h1 h2 h3)
    obtain ⟨r, fs1⟩ := p
    rw [hp]
    dsimp only
    obtain ⟨q, hq⟩ := Option.isSome_iff_exists.mp (ih (k + 1) fs1)
    obtain ⟨rs1, fs2⟩ := q
    rw [hq]
    rfl

theorem runCycle_ok (cfg : Config) (mm : Bool)
    (re4chan retwochen : List Char → List (List (List Char))) (siteID : List Char)
    (st : Nat) (body : List Char) (envs : Nat → WorkerEnv) (path : List Char)
    (fs : List (List Char)) :
    runCycle cfg mm re4chan retwochen siteID (FetchResult.ok st body) envs path fs =
      match runWorkers cfg mm envs path (findImages re4chan retwochen body siteID) 0 fs with
      | none => none
      | some (rs, fs') =>
        some (rs, (findImages re4chan retwochen body siteID).length, fs') := rfl

theorem runCycle_count (cfg : Config) (mm : Bool)
    (re4chan retwochen : List Char → List (List (List Char))) (siteID : List Char)
    (st : Nat) (body : List Char) (envs : Nat → WorkerEnv) (path : List Char)
    (fs : List (List Char)) (rs : List WorkerResult) (n : Nat)
    (fs' : List (List Char))
    (hres : runCycle cfg mm re4chan retwochen siteID (FetchResult.ok st body) envs
      path fs = some (rs, n, fs')) :
    n = (findImages re4chan retwochen body siteID).length ∧ rs.length = n := by
  rw [runCycle_ok] at hres
  cases hw : runWorkers cfg mm envs path (findImages re4chan retwochen body siteID)
      0 fs with
  | none => rw [hw] at hres; exact absurd hres (by simp)
  | some q =>
    obtain ⟨rs1, fs1⟩ := q
    rw [hw] at hres
    dsimp only at hres
    injection hres with h
    injection h with h1 h
    injection h with h2 h3
    subst h1
    subst h2
    exact ⟨rfl, runWorkers_length cfg mm envs path _ 0 fs rs1 fs1 hw⟩

theorem runLoop_zero (cfg : Config) (mm : Bool)
    (re4chan retwochen : List Char → List (List (List Char))) (siteID : List Char)
    (secs : Nat) (pageF : Nat → FetchResult) (wenvs : Nat → Nat → WorkerEnv)
    (path : List Char) (cyc : Nat) (fs : List (List Char)) (files : Nat) :
    runLoop cfg mm re4chan retwochen siteID secs pageF wenvs path 0 cyc fs files =
      some ([], files, fs) := rfl

theorem runLoop_succ (cfg : Config) (mm : Bool)
    (re4chan retwochen : List Char → List (List (List Char))) (siteID : List Char)
    (secs : Nat) (pageF : Nat → FetchResult) (wenvs : Nat → Nat → WorkerEnv)
    (path : List Char) (fuel cyc : Nat) (fs : List (List Char)) (files : Nat) :
    runLoop cfg mm re4chan retwochen siteID secs pageF wenvs path (fuel + 1) cyc
        fs files =
      match runCycle cfg mm re4chan retwochen siteID (pageF cyc) (wenvs cyc)
          path fs with
      | none => none
      | some (_, n, fs') =>
        if mm = false then some ([RunEvent.pageFetch], files + n, fs')
        else
          match runLoop cfg mm re4chan retwochen siteID secs pageF wenvs path fuel
              (cyc + 1) fs' (files + n) with
          | none => none
          | some (evs, f, fs'') =>
            some (RunEvent.pageFetch ::
              ((countdownTicks secs).map RunEvent.tick ++ evs), f, fs'') := rfl

theorem runLoop_single (cfg : Config)
    (re4chan retwochen : List Char → List (List (List Char))) (siteID : List Char)
    (secs : Nat) (pageF : Nat → FetchResult) (wenvs : Nat → Nat → WorkerEnv)
    (path : List Char) (fuel cyc : Nat) (fs : List (List Char)) (files : Nat)
    (rs : List WorkerResult) (n : Nat) (fs' : List (List Char))
    (hc : runCycle cfg false re4chan retwochen siteID (pageF cyc) (wenvs cyc)
      path fs = some (rs, n, fs')) :
    runLoop cfg false re4chan retwochen siteID secs pageF wenvs path (fuel + 1)
        cyc fs files = some ([RunEvent.pageFetch], files + n, fs') := by
  rw [runLoop_succ, hc]
  dsimp only
  rw [if_pos rfl]

theorem runLoop_monitor_step (cfg : Config)
    (re4chan retwochen : List Char → List (List (List Char))) (siteID : List Char)
    (secs : Nat) (pageF : Nat → FetchResult) (wenvs : Nat → Nat → WorkerEnv)
    (path : List Char) (fuel cyc : Nat) (fs : List (List Char)) (files : Nat)
    (rs : List WorkerResult) (n : Nat) (fs' : List (List Char))
    (evs : List RunEvent) (f : Nat) (fs'' : List (List Char))
    (hc : runCycle cfg true re4chan retwochen siteID (pageF cyc) (wenvs cyc)
      path fs = some (rs, n, fs'))
    (hr : runLoop cfg true re4chan retwochen siteID secs pageF wenvs path fuel
      (cyc + 1) fs' (files + n) = some (evs, f, fs'')) :
    runLoop cfg true re4chan retwochen siteID secs pageF wenvs path (fuel + 1)
        cyc fs files =
      some (RunEvent.pageFetch ::
        ((countdownTicks secs).map RunEvent.tick ++ evs), f, fs'') := by
  rw [runLoop_succ, hc]
  dsimp only
  rw [if_neg (by simp), hr]

theorem runLoop_head_pageFetch (cfg : Config) (mm : Bool)
    (re4chan retwochen : List Char → List (List (List Char))) (siteID : List Char)
    (secs : Nat) (pageF : Nat → FetchResult) (wenvs : Nat → Nat → WorkerEnv)
    (path : List Char) (fuel cyc : Nat) (fs : List (List Char)) (files : Nat)
    (evs : List RunEvent) (f : Nat) (fs'' : List (List Char))
    (h : runLoop cfg mm re4chan retwochen siteID secs pageF wenvs path (fuel + 1)
      cyc fs files = some (evs, f, fs'')) :
    evs.head? = some RunEvent.pageFetch := by
  rw [runLoop_succ] at h
  cases hc : runCycle cfg mm re4chan retwochen siteID (pageF cyc) (wenvs cyc)
      path fs with
  | none => rw [hc] at h; exact absurd h (by simp)
  | some q =>
    obtain ⟨rs, n, fs'⟩ := q
    rw [hc] at h
    dsimp only at h
    by_cases hmm : mm = false
    · rw [if_pos hmm] at h
      injection h with h
      injection h with h1 h2
      subst h1
      rfl
    · rw [if_neg hmm] at h
      cases hrec : runLoop cfg mm re4chan retwochen siteID secs pageF wenvs path fuel
          (cyc + 1) fs' (files + n) with
      | none => rw [hrec] at h; exact absurd h (by simp)
      | some q2 =>
        obtain ⟨evs2, f2, fsx⟩ := q2
        rw [hrec] at h
        dsimp only at h
        injection h with h
        injection h with h1 h2
        subst h1
        rfl

theorem countdownTicks_head (n : Nat) : (countdownTicks n).head? = some n := by
  cases n <;> rfl

theorem countdownTicks_last (n : Nat) : (countdownTicks n).getLast? = some 0 := by
  induction n with
  | zero => rfl
  | succ m ih =>
    rw [countdownTicks]
    rw [List.getLast?_cons, ← ih]
    cases hm : countdownTicks m with
    | nil => exact absurd (countdownTicks_head m) (by rw [hm]; simp)
    | cons a t => simp [List.getLast?_cons]

theorem countdownTicks_chain (n : Nat) :
    List.Chain' (fun a b => a = b + 1) (countdownTicks n) := by
  induction n with
  | zero => simp [countdownTicks]
  | succ m ih =>
    rw [countdownTicks]
    refine List.chain'_cons'.mpr ⟨?_, ih⟩
    intro y hy
    rw [countdownTicks_head m] at hy
    injection hy with hy
    omega

/-! Lemmas about the legacy `.jpg`-default worker. -/

theorem fallbackLoop_cons (net : List Char → HttpResult) (urldext fileName ext : List Char)
    (rest : List (List Char)) (st : Nat) :
    fallbackLoop net urldext fileName (ext :: rest) st =
      match net (urldext ++ ext) with
      | HttpResult.err => none
      | HttpResult.resp s =>
        if s ≠ 404 then some (s, replaceFirstL ".jpg".toList ext fileName)
        else fallbackLoop net urldext fileName rest s := rfl

theorem downloadFileV1_fallback_png (mm : Bool) (net : List Char → HttpResult)
    (copyB : Nat) (ubase nbase path : List Char) (fs : List (List Char))
    (hu : occursL ".jpg".toList ubase = false)
    (hn : occursL ".jpg".toList nbase = false)
    (h404 : net (ubase ++ ".jpg".toList) = HttpResult.resp 404)
    (h200 : net (ubase ++ ".png".toList) = HttpResult.resp 200)
    (hb1 : 1 ≤ copyB) (hb5 : copyB < 1024 ^ 5)
    (hnx : fs.contains (path ++ "//".toList ++ (nbase ++ ".png".toList)) = false) :
    downloadFileV1 mm net true copyB (ubase ++ ".jpg".toList)
        (nbase ++ ".jpg".toList) path fs =
      some ({ status := Status.downloaded, fileName := nbase ++ ".png".toList,
              bytes := copyB },
            fs.concat (path ++ "//".toList ++ (nbase ++ ".png".toList))) := by
  have hsplit : splitHeadL ".jpg".toList (ubase ++ ".jpg".toList) = ubase :=
    splitHeadL_jpg_append ubase hu
  have hrepl : replaceFirstL ".jpg".toList ".png".toList (nbase ++ ".jpg".toList)
      = nbase ++ ".png".toList := replaceFirstL_jpg_append nbase ".png".toList hn
  have hb0 : ¬ copyB = 0 := by omega
  obtain ⟨sfx, hsfx⟩ := Option.isSome_iff_exists.mp
    (suffixes_get?_isSome_of_lt (suffixIdx copyB) (suffixIdx_lt_five copyB hb1 hb5))
  rw [contains_eq_mem] at hnx
  simp only [downloadFileV1, h404]
  rw [if_pos trivial, hsplit, fallbackLoop_cons, h200]
  dsimp only
  rw [if_pos (by decide), hrepl]
  dsimp only
  rw [if_pos (by decide : (200 : Nat) ≠ 404)]
  simp only [contains_eq_mem, hnx]
  rw [if_pos (Or.inl trivial)]
  rw [if_neg (by simp)]
  rw [if_neg hb0, hsfx]

theorem downloadFileV1_fallback_gif (mm : Bool) (net : List Char → HttpResult)
    (copyB : Nat) (ubase nbase path : List Char) (fs : List (List Char))
    (hu : occursL ".jpg".toList ubase = false)
    (hn : occursL ".jpg".toList nbase = false)
    (h404 : net (ubase ++ ".jpg".toList) = HttpResult.resp 404)
    (hp404 : net (ubase ++ ".png".toList) = HttpResult.resp 404)
    (hw404 : net (ubase ++ ".webm".toList) = HttpResult.resp 404)
    (hg200 : net (ubase ++ ".gif".toList) = HttpResult.resp 200)
    (hb1 : 1 ≤ copyB) (hb5 : copyB < 1024 ^ 5)
    (hnx : fs.contains (path ++ "//".toList ++ (nbase ++ ".gif".toList)) = false) :
    downloadFileV1 mm net true copyB (ubase ++ ".jpg".toList)
        (nbase ++ ".jpg".toList) path fs =
      some ({ status := Status.downloaded, fileName := nbase ++ ".gif".toList,
              bytes := copyB },
            fs.concat (path ++ "//".toList ++ (nbase ++ ".gif".toList))) := by
  have hsplit : splitHeadL ".jpg".toList (ubase ++ ".jpg".toList) = ubase :=
    splitHeadL_jpg_append ubase hu
  have hrepl : replaceFirstL ".jpg".toList ".gif".toList (nbase ++ ".jpg".toList)
      = nbase ++ ".gif".toList := replaceFirstL_jpg_append nbase ".gif".toList hn
  have hb0 : ¬ copyB = 0 := by omega
  obtain ⟨sfx, hsfx⟩ := Option.isSome_iff_exists.mp
    (suffixes_get?_isSome_of_lt (suffixIdx copyB) (suffixIdx_lt_five copyB hb1 hb5))
  rw [contains_eq_mem] at hnx
  simp only [downloadFileV1, h404]
  rw [if_pos trivial, hsplit, fallbackLoop_cons, hp404]
  dsimp only
  rw [if_neg (by simp), fallbackLoop_cons, hw404]
  dsimp only
  rw [if_neg (by simp), fallbackLoop_cons, hg200]
  dsimp only
  rw [if_pos (by decide), hrepl]
  dsimp only
  rw [if_pos (by decide : (200 : Nat) ≠ 404)]
  simp only [contains_eq_mem, hnx]
  rw [if_pos (Or.inl trivial)]
  rw [if_neg (by simp)]
  rw [if_neg hb0, hsfx]

theorem png_not_jpg_suffix (nbase : List Char) :
    ¬ ∃ pre, nbase ++ ".png".toList = pre ++ ".jpg".toList := by
  rintro ⟨pre, hpre⟩
  have h := (List.append_inj' hpre rfl).2
  exact absurd h (by decide)

theorem gif_not_jpg_suffix (nbase : List Char) :
    ¬ ∃ pre, nbase ++ ".gif".toList = pre ++ ".jpg".toList := by
  rintro ⟨pre, hpre⟩
  have h := (List.append_inj' hpre rfl).2
  exact absurd h (by decide)

/-! Claim theorems. -/

/-- C1: for the profile whose derived filenames default to `.jpg`
(`src/4cget.go`), a 404 on the `.jpg` target advances the candidate URL
through the fixed fallback sequence `.jpg → .png → .webm → .gif` and renames
the file to match the first non-404 candidate.  In particular a link whose
`.jpg` target answers 404 and whose `.png` target answers 200 yields a
Downloaded outcome whose filename ends in `.png`, not `.jpg`; and when
`.png` and `.webm` also answer 404, the `.gif` candidate is used and the
filename ends in `.gif`. -/
theorem c1_extension_fallback :
    (∀ (mm : Bool) (net : List Char → HttpResult) (copyB : Nat)
        (ubase nbase path : List Char) (fs : List (List Char)),
      occursL ".jpg".toList ubase = false →
      occursL ".jpg".toList nbase = false →
      net (ubase ++ ".jpg".toList) = HttpResult.resp 404 →
      net (ubase ++ ".png".toList) = HttpResult.resp 200 →
      1 ≤ copyB → copyB < 1024 ^ 5 →
      fs.contains (path ++ "//".toList ++ (nbase ++ ".png".toList)) = false →
      downloadFileV1 mm net true copyB (ubase ++ ".jpg".toList)
          (nbase ++ ".jpg".toList) path fs =
        some ({ status := Status.downloaded, fileName := nbase ++ ".png".toList,
                bytes := copyB },
              fs.concat (path ++ "//".toList ++ (nbase ++ ".png".toList)))
      ∧ (∃ pre, nbase ++ ".png".toList = pre ++ ".png".toList)
      ∧ ¬ (∃ pre, nbase ++ ".png".toList = pre ++ ".jpg".toList)) ∧
    (∀ (mm : Bool) (net : List Char → HttpResult) (copyB : Nat)
        (ubase nbase path : List Char) (fs : List (List Char)),
      occursL ".jpg".toList ubase = false →
      occursL ".jpg".toList nbase = false →
      net (ubase ++ ".jpg".toList) = HttpResult.resp 404 →
      net (ubase ++ ".png".toList) = HttpResult.resp 404 →
      net (ubase ++ ".webm".toList) = HttpResult.resp 404 →
      net (ubase ++ ".gif".toList) = HttpResult.resp 200 →
      1 ≤ copyB → copyB < 1024 ^ 5 →
      fs.contains (path ++ "//".toList ++ (nbase ++ ".gif".toList)) = false →
      downloadFileV1 mm net true copyB (ubase ++ ".jpg".toList)
          (nbase ++ ".jpg".toList) path fs =
        some ({ status := Status.downloaded, fileName := nbase ++ ".gif".toList,
                bytes := copyB },
              fs.concat (path ++ "//".toList ++ (nbase ++ ".gif".toList)))
      ∧ ¬ (∃ pre, nbase ++ ".gif".toList = pre ++ ".jpg".toList)) := by
  constructor
  · intro mm net copyB ubase nbase path fs hu hn h404 h200 hb1 hb5 hnx
    exact ⟨downloadFileV1_fallback_png mm net copyB ubase nbase path fs hu hn h404
        h200 hb1 hb5 hnx,
      ⟨nbase, rfl⟩, png_not_jpg_suffix nbase⟩
  · intro mm net copyB ubase nbase path fs hu hn h404 hp404 hw404 hg200 hb1 hb5 hnx
    exact ⟨downloadFileV1_fallback_gif mm net copyB ubase nbase path fs hu hn h404
        hp404 hw404 hg200 hb1 hb5 hnx, gif_not_jpg_suffix nbase⟩

/-- Witness for C1 at a concrete input: base URL `u`, base name `n`, 100
bytes copied; the `.jpg` target 404s, the `.png` target 200s. -/
theorem c1_extension_fallback_witness :
    downloadFileV1 false netV1png true 100 ("u".toList ++ ".jpg".toList)
        ("n".toList ++ ".jpg".toList) "p".toList [] =
      some ({ status := Status.downloaded, fileName := "n".toList ++ ".png".toList,
              bytes := 100 },
            ([] : List (List Char)).concat
              ("p".toList ++ "//".toList ++ ("n".toList ++ ".png".toList)))
    ∧ (∃ pre, "n".toList ++ ".png".toList = pre ++ ".png".toList)
    ∧ ¬ (∃ pre, "n".toList ++ ".png".toList = pre ++ ".jpg".toList) :=
  c1_extension_fallback.1 false netV1png 100 "u".toList "n".toList "p".toList []
    (by decide) (by decide) (by decide) (by decide) (by decide) (by decide) (by decide)

/-- C2: with the existence pre-check passing, an asset whose every attempt
answers 404 (or 429) is retried exactly `retryAttempts` times (10 by
default), with the fixed delay slept after every failed attempt, then
yields a Failed outcome and no file is written.  But when every attempt
fails at the transport level, the code does NOT yield Failed: `resp` stays
nil through the loop and `resp.StatusCode` panics, crashing the process
(modelled as `none`) — the claim's transport-error clause is a code bug. -/
theorem c2_retry_budget :
    GlobalConfig.retryAttempts = 10 ∧
    (∀ (cfg : Config) (mm : Bool) (env : WorkerEnv) (url fn path : List Char)
        (fs : List (List Char)),
      env.statErr = false →
      fs.contains (pathJoin path fn) = false →
      1 ≤ cfg.retryAttempts →
      (∀ j, j < cfg.retryAttempts →
        env.net j = HttpResult.resp 404 ∨ env.net j = HttpResult.resp 429) →
      downloadFile cfg mm env url fn path fs =
        some ({ status := Status.failed, fileName := fn, bytes := 0,
                attempts := cfg.retryAttempts, sleeps := cfg.retryAttempts }, fs)) ∧
    (∀ (cfg : Config) (mm : Bool) (env : WorkerEnv) (url fn path : List Char)
        (fs : List (List Char)),
      env.statErr = false →
      fs.contains (pathJoin path fn) = false →
      1 ≤ cfg.retryAttempts →
      (∀ j, j < cfg.retryAttempts → env.net j = HttpResult.err) →
      downloadFile cfg mm env url fn path fs = none) := by
  refine ⟨rfl, ?_, ?_⟩
  · intro cfg mm env url fn path fs hstat hnx hr hnet
    exact downloadFile_notfound_exhaust cfg mm env url fn path fs hstat hnx hr hnet
  · intro cfg mm env url fn path fs hstat hnx hr hnet
    exact downloadFile_transport_exhaust cfg mm env url fn path fs hstat hnx hr hnet

/-- Witness for C2: all-404 environment makes exactly 10 attempts then
Failed without writing; all-transport-error environment panics. -/
theorem c2_retry_budget_witness :
    downloadFile GlobalConfig false env404 "u".toList "f".toList "p".toList [] =
      some ({ status := Status.failed, fileName := "f".toList, bytes := 0,
              attempts := 10, sleeps := 10 }, []) ∧
    downloadFile GlobalConfig false envErr "u".toList "f".toList "p".toList [] =
      none :=
  ⟨c2_retry_budget.2.1 GlobalConfig false env404 "u".toList "f".toList "p".toList []
     rfl (by decide) (by decide) (fun j _ => Or.inl rfl),
   c2_retry_budget.2.2 GlobalConfig false envErr "u".toList "f".toList "p".toList []
     rfl (by decide) (by decide) (fun j _ => rfl)⟩

/-- C5: a transport error on the thread-page fetch does not lead to an
empty body — `resp, _ := http.Get(inputUrl)` leaves `resp` nil and
`io.ReadAll(resp.Body)` dereferences it, panicking and killing the run
(modelled as `none`), for every configuration and filesystem state. -/
theorem c5_page_fetch_error_panics (cfg : Config) (mm : Bool)
    (re4chan retwochen : List Char → List (List (List Char))) (siteID : List Char)
    (envs : Nat → WorkerEnv) (path : List Char) (fs : List (List Char)) :
    runCycle cfg mm re4chan retwochen siteID FetchResult.err envs path fs = none := rfl

/-- C10: the size-log suffix index `int(math.Floor(math.Log b / math.Log 1024))`
equals `⌊log_1024 b⌋`; for every `1 ≤ b < 1024^5` it lies within the bounds
of the five-element suffix array `[B, KB, MB, GB, TB]`.  An empty body
(`b = 0`) lies outside the guarantee: there the worker's size computation
panics (slice index out of range), shown by the third conjunct. -/
theorem c10_suffix_index_bounds :
    (∀ b : Nat, 1 ≤ b → b < 1024 ^ 5 →
      suffixIdx b ≤ 4 ∧ (suffixes.get? (suffixIdx b)).isSome = true ∧
      (suffixIdx b : ℤ) = ⌊Real.logb 1024 (b : ℝ)⌋) ∧
    suffixes.length = 5 ∧
    (∀ (cfg : Config) (mm : Bool) (env : WorkerEnv) (url fn path : List Char)
        (fs : List (List Char)),
      env.statErr = false →
      fs.contains (pathJoin path fn) = false →
      (retryLoop env.net 0 cfg.retryAttempts none).resp = some 200 →
      env.createOk = true →
      env.copyRes = some 0 →
      downloadFile cfg mm env url fn path fs = none) := by
  refine ⟨?_, rfl, ?_⟩
  · intro b hb1 hb5
    have hlt := suffixIdx_lt_five b hb1 hb5
    exact ⟨by omega, suffixes_get?_isSome_of_lt (suffixIdx b) hlt,
      suffixIdx_eq_floor_logb b hb1⟩
  · intro cfg mm env url fn path fs hstat hnx hresp hco hcr
    rw [contains_eq_mem] at hnx
    simp only [downloadFile, fileExists, hstat, contains_eq_mem, hnx, hresp, hco, hcr,
      Bool.false_eq_true, if_false]
    rw [if_pos (Or.inl trivial)]
    simp

/-- Witness for C10: `b = 2048` has suffix index 1 (`KB`), inside bounds;
a worker whose copy returns 0 bytes panics. -/
theorem c10_suffix_index_bounds_witness :
    (suffixIdx 2048 ≤ 4 ∧ (suffixes.get? (suffixIdx 2048)).isSome = true ∧
      ((suffixIdx 2048 : Nat) : ℤ) = ⌊Real.logb 1024 ((2048 : Nat) : ℝ)⌋) ∧
    downloadFile GlobalConfig false envZeroCopy "u".toList "f".toList "p".toList []
      = none :=
  ⟨c10_suffix_index_bounds.1 2048 (by decide) (by decide),
   c10_suffix_index_bounds.2.2 GlobalConfig false envZeroCopy "u".toList "f".toList
     "p".toList [] rfl (by decide) (by decide) rfl rfl⟩

/-- C3: a worker whose destination file already exists returns
SkippedExisting at once — zero GETs, zero sleeps, no filesystem change;
consequently, when a cycle ends with every asset Downloaded or
SkippedExisting, re-running the cycle against the unchanged page turns
every outcome into SkippedExisting (zero new Downloaded, zero network
attempts) and leaves the filesystem untouched: a file once written is
never re-opened for writing by a later cycle. -/
theorem c3_skip_existing_idempotent :
    (∀ (cfg : Config) (mm : Bool) (env : WorkerEnv) (url fn path : List Char)
        (fs : List (List Char)),
      env.statErr = false →
      fs.contains (pathJoin path fn) = true →
      downloadFile cfg mm env url fn path fs = some (skipResult fn, fs)) ∧
    (∀ (cfg : Config) (mm1 mm2 : Bool)
        (re4chan retwochen : List Char → List (List (List Char)))
        (siteID : List Char) (st : Nat) (body : List Char)
        (envs1 envs2 : Nat → WorkerEnv) (path : List Char)
        (fs : List (List Char)) (rs : List WorkerResult) (n : Nat)
        (fs1 : List (List Char)),
      runCycle cfg mm1 re4chan retwochen siteID (FetchResult.ok st body) envs1
        path fs = some (rs, n, fs1) →
      (∀ r, r ∈ rs → r.status ≠ Status.failed) →
      (∀ j, (envs2 j).statErr = false) →
      runCycle cfg mm2 re4chan retwochen siteID (FetchResult.ok st body) envs2
          path fs1 =
        some ((findImages re4chan retwochen body siteID).map
                (fun l => skipResult (lastSegmentL l)),
              (findImages re4chan retwochen body siteID).length, fs1) ∧
      (∀ r2, r2 ∈ (findImages re4chan retwochen body siteID).map
          (fun l => skipResult (lastSegmentL l)) →
        r2.status = Status.skippedExisting ∧ r2.attempts = 0)) := by
  constructor
  · intro cfg mm env url fn path fs hstat hex
    exact downloadFile_skip cfg mm env url fn path fs hstat hex
  · intro cfg mm1 mm2 re4chan retwochen siteID st body envs1 envs2 path fs rs n fs1
      h1 hall hstat2
    rw [runCycle_ok] at h1
    cases hw : runWorkers cfg mm1 envs1 path
        (findImages re4chan retwochen body siteID) 0 fs with
    | none => rw [hw] at h1; exact absurd h1 (by simp)
    | some q =>
      obtain ⟨rs1, fsx⟩ := q
      rw [hw] at h1
      dsimp only at h1
      injection h1 with h
      injection h with h1a h
      injection h with h1b h1c
      subst h1a
      subst h1c
      have hexist : ∀ link, link ∈ findImages re4chan retwochen body siteID →
          pathJoin path (lastSegmentL link) ∈ fsx :=
        runWorkers_establishes cfg mm1 envs1 path _ 0 fs rs1 fsx hw hall
      constructor
      · rw [runCycle_ok]
        rw [runWorkers_all_exist_skip cfg mm2 envs2 path _ 0 fsx hstat2 hexist]
      · intro r2 hr2
        obtain ⟨l, _, rfl⟩ := List.mem_map.mp hr2
        exact ⟨rfl, rfl⟩

/-- Witness for C3: part one at an existing file; part two re-running a
concrete one-link cycle whose first run downloaded the file. -/
theorem c3_skip_existing_idempotent_witness :
    downloadFile GlobalConfig false envOk "u".toList "f".toList "p".toList
      [pathJoin "p".toList "f".toList] =
      some (skipResult "f".toList, [pathJoin "p".toList "f".toList]) ∧
    (runCycle GlobalConfig false reOneLink reNoMatch "4chan".toList
        (FetchResult.ok 200 "h".toList) envsAllOk "p".toList
        [pathJoin "p".toList "7.jpg".toList] =
      some ((findImages reOneLink reNoMatch "h".toList "4chan".toList).map
              (fun l => skipResult (lastSegmentL l)),
            (findImages reOneLink reNoMatch "h".toList "4chan".toList).length,
            [pathJoin "p".toList "7.jpg".toList]) ∧
     (∀ r2, r2 ∈ (findImages reOneLink reNoMatch "h".toList "4chan".toList).map
         (fun l => skipResult (lastSegmentL l)) →
       r2.status = Status.skippedExisting ∧ r2.attempts = 0)) :=
  ⟨c3_skip_existing_idempotent.1 GlobalConfig false envOk "u".toList "f".toList
     "p".toList [pathJoin "p".toList "f".toList] rfl (by decide),
   c3_skip_existing_idempotent.2 GlobalConfig false false reOneLink reNoMatch
     "4chan".toList 200 "h".toList envsAllOk envsAllOk "p".toList []
     [{ status := Status.downloaded, fileName := "7.jpg".toList, bytes := 100,
        attempts := 1, sleeps := 0 }] 1 [pathJoin "p".toList "7.jpg".toList]
     (by decide) (by decide) (fun j => rfl)⟩

/-- Counterexample for C4: a cycle over one link whose file already exists
produces zero Downloaded outcomes, yet the run-wide `files` counter is
incremented once (at dispatch) — so the counter is NOT incremented "only
for Downloaded outcomes". -/
theorem c4_counter_files_counts_dispatches :
    runCycle GlobalConfig false reOneLink reNoMatch "4chan".toList
        (FetchResult.ok 200 "h".toList) envsAllOk "p".toList
        [pathJoin "p".toList "7.jpg".toList] =
      some ([skipResult "7.jpg".toList], 1, [pathJoin "p".toList "7.jpg".toList]) ∧
    ([skipResult "7.jpg".toList].filter
      (fun r => r.status == Status.downloaded)).length = 0 ∧
    (1 : Nat) ≠ 0 := by
  exact ⟨by decide, by decide, by decide⟩

/-- C4 (amended): the `files` counter is incremented exactly once per
dispatched asset link — it ends up equal to the number of extracted links
and to the number of joined outcomes — regardless of each outcome; in the
three-distinct-links empty-directory scenario, where every download
succeeds, the cycle yields three Downloaded outcomes, three files on disk
and a final report of `files = 3` without entering the countdown state. -/
theorem c4_files_counter_amended :
    (∀ (cfg : Config) (mm : Bool)
        (re4chan retwochen : List Char → List (List (List Char)))
        (siteID : List Char) (st : Nat) (body : List Char)
        (envs : Nat → WorkerEnv) (path : List Char) (fs : List (List Char))
        (rs : List WorkerResult) (n : Nat) (fs' : List (List Char)),
      runCycle cfg mm re4chan retwochen siteID (FetchResult.ok st body) envs path fs
        = some (rs, n, fs') →
      n = (findImages re4chan retwochen body siteID).length ∧ rs.length = n) ∧
    runCycle GlobalConfig false reThreeLinks reNoMatch "4chan".toList
        (FetchResult.ok 200 "h".toList) envsAllOk "p".toList [] =
      some ([{ status := Status.downloaded, fileName := "1.jpg".toList, bytes := 100,
               attempts := 1, sleeps := 0 },
             { status := Status.downloaded, fileName := "2.png".toList, bytes := 100,
               attempts := 1, sleeps := 0 },
             { status := Status.downloaded, fileName := "3.gif".toList, bytes := 100,
               attempts := 1, sleeps := 0 }], 3,
            [pathJoin "p".toList "1.jpg".toList, pathJoin "p".toList "2.png".toList,
             pathJoin "p".toList "3.gif".toList]) ∧
    runLoop GlobalConfig false reThreeLinks reNoMatch "4chan".toList 0
        (fun _ => FetchResult.ok 200 "h".toList) wenvsAllOk "p".toList 1 0 [] 0 =
      some ([RunEvent.pageFetch], 3,
            [pathJoin "p".toList "1.jpg".toList, pathJoin "p".toList "2.png".toList,
             pathJoin "p".toList "3.gif".toList]) := by
  refine ⟨?_, by decide, by decide⟩
  intro cfg mm re4chan retwochen siteID st body envs path fs rs n fs' hres
  exact runCycle_count cfg mm re4chan retwochen siteID st body envs path fs rs n
    fs' hres

/-- Witness for C4 (amended), instantiating the universal conjunct at the
three-link scenario: the counter equals the number of links and outcomes. -/
theorem c4_files_counter_amended_witness :
    (3 : Nat) = (findImages reThreeLinks reNoMatch "h".toList "4chan".toList).length
      ∧ ([{ status := Status.downloaded, fileName := "1.jpg".toList, bytes := 100,
            attempts := 1, sleeps := 0 },
          { status := Status.downloaded, fileName := "2.png".toList, bytes := 100,
            attempts := 1, sleeps := 0 },
          { status := Status.downloaded, fileName := "3.gif".toList, bytes := 100,
            attempts := 1, sleeps := 0 }] : List WorkerResult).length = 3 :=
  c4_files_counter_amended.1 GlobalConfig false reThreeLinks reNoMatch
    "4chan".toList 200 "h".toList envsAllOk "p".toList []
    [{ status := Status.downloaded, fileName := "1.jpg".toList, bytes := 100,
       attempts := 1, sleeps := 0 },
     { status := Status.downloaded, fileName := "2.png".toList, bytes := 100,
       attempts := 1, sleeps := 0 },
     { status := Status.downloaded, fileName := "3.gif".toList, bytes := 100,
       attempts := 1, sleeps := 0 }] 3
    [pathJoin "p".toList "1.jpg".toList, pathJoin "p".toList "2.png".toList,
     pathJoin "p".toList "3.gif".toList] (by decide)

theorem findImages_eq (re4chan retwochen : List Char → List (List (List Char)))
    (html siteID : List Char) :
    findImages re4chan retwochen html siteID
      = unique (extractorRaw re4chan retwochen html siteID) := by
  rw [findImages, extractorRaw]
  cases mapLookup (siteInfoMap re4chan retwochen) siteID
  · rfl
  · rfl

/-- C6: the extractor is a pure function of the page content and profile:
it returns the matches' first capture groups, transformed by the profile's
link rewrite, deduplicated by exact URL string keeping each first
occurrence in first-seen order (`firstOccurs`); its output has no
duplicates, is a subsequence of the raw transformed list, contains exactly
the raw links, is empty when there is no match, and collapses a
twice-matched link to one entry. -/
theorem c6_extractor_dedup
    (re4chan retwochen : List Char → List (List (List Char)))
    (html siteID : List Char) :
    findImages re4chan retwochen html siteID =
      firstOccurs (extractorRaw re4chan retwochen html siteID) ∧
    (findImages re4chan retwochen html siteID).Nodup ∧
    (findImages re4chan retwochen html siteID).Sublist
      (extractorRaw re4chan retwochen html siteID) ∧
    (∀ x, x ∈ findImages re4chan retwochen html siteID ↔
      x ∈ extractorRaw re4chan retwochen html siteID) ∧
    (extractorRaw re4chan retwochen html siteID = [] →
      findImages re4chan retwochen html siteID = []) ∧
    (∀ u full : List Char,
      findImages re4chan (fun _ => [[full, u], [full, u]]) html "twochen".toList
        = [u]) := by
  have hkey : ∀ l, unique l = firstOccurs l := by
    intro l
    rw [unique, uniqueAux_eq_firstOccurs]
    congr 1
    rw [List.filter_eq_self.mpr]
    intro a _
    rfl
  refine ⟨?_, ?_, ?_, ?_, ?_, ?_⟩
  · rw [findImages_eq, hkey]
  · rw [findImages_eq]
    exact uniqueAux_nodup _ []
  · rw [findImages_eq]
    exact uniqueAux_sublist _ []
  · intro x
    rw [findImages_eq, unique, mem_uniqueAux]
    simp
  · intro hraw
    rw [findImages_eq, hraw]
    rfl
  · intro u full
    rw [findImages_eq]
    have hraw : extractorRaw re4chan (fun _ => [[full, u], [full, u]]) html
        "twochen".toList = [u, u] := rfl
    rw [hraw]
    simp [unique, uniqueAux, contains_eq_mem]

/-- Counterexample for C7: a cycle with two extracted links in which the
FIRST worker's existence pre-check `os.Stat` fails with a permission-style
error.  `fileExists` executes `panic(err)`, which kills the whole process:
the cycle aborts (`none`) and the second worker never reports — the
failure is not local to one asset. -/
theorem c7_counter_stat_error_aborts :
    (findImages reTwoSameName reNoMatch "h".toList "4chan".toList).length = 2 ∧
    runCycle GlobalConfig false reTwoSameName reNoMatch "4chan".toList
      (FetchResult.ok 200 "h".toList) envsFirstStatErr "p".toList [] = none := by
  exact ⟨by decide, by decide⟩

/-- C7 (amended): per-asset failures that end with an HTTP response —
retried transport errors, a terminal non-success status, a create or copy
error — are local: every worker of the cycle returns an outcome and the
batch completes with one outcome per link.  (The exceptions, which abort
the whole run, are a stat error in the existence pre-check and a retry
loop whose final state holds no response — see the counterexample and C2.) -/
theorem c7_failures_local_amended :
    ∀ (cfg : Config) (mm : Bool)
      (re4chan retwochen : List Char → List (List (List Char)))
      (siteID : List Char) (st : Nat) (body : List Char)
      (envs : Nat → WorkerEnv) (path : List Char) (fs : List (List Char)),
    (∀ j, (envs j).statErr = false ∧
      (retryLoop (envs j).net 0 cfg.retryAttempts none).resp.isSome = true ∧
      (∀ b, (envs j).copyRes = some b → 1 ≤ b ∧ b < 1024 ^ 5)) →
    ∃ rs fs',
      runCycle cfg mm re4chan retwochen siteID (FetchResult.ok st body) envs path fs
        = some (rs, (findImages re4chan retwochen body siteID).length, fs') ∧
      rs.length = (findImages re4chan retwochen body siteID).length := by
  intro cfg mm re4chan retwochen siteID st body envs path fs hgood
  obtain ⟨q, hq⟩ := Option.isSome_iff_exists.mp
    (runWorkers_isSome cfg mm envs path hgood
      (findImages re4chan retwochen body siteID) 0 fs)
  obtain ⟨rs, fs'⟩ := q
  refine ⟨rs, fs', ?_, ?_⟩
  · rw [runCycle_ok, hq]
  · exact runWorkers_length cfg mm envs path _ 0 fs rs fs' hq

/-- Witness for C7 (amended) at a concrete two-link cycle with
well-behaved workers. -/
theorem c7_failures_local_amended_witness :
    ∃ rs fs',
      runCycle GlobalConfig false reTwoSameName reNoMatch "4chan".toList
          (FetchResult.ok 200 "h".toList) envsAllOk "p".toList []
        = some (rs,
            (findImages reTwoSameName reNoMatch "h".toList "4chan".toList).length,
            fs') ∧
      rs.length =
        (findImages reTwoSameName reNoMatch "h".toList "4chan".toList).length :=
  c7_failures_local_amended GlobalConfig false reTwoSameName reNoMatch
    "4chan".toList 200 "h".toList envsAllOk "p".toList []
    (fun j => ⟨rfl, rfl, fun b hb => by
      injection hb with hb
      subst hb
      exact ⟨by decide, by decide⟩⟩)

theorem countdownTicks_eq_range (n : Nat) :
    countdownTicks n = (List.range (n + 1)).reverse := by
  induction n with
  | zero => rfl
  | succ m ih =>
    have h2 : List.range (m + 1 + 1) = List.range (m + 1) ++ [m + 1] :=
      List.range_succ (m + 1)
    rw [countdownTicks, ih, h2, List.reverse_append]
    rfl

/-- A monitoring run's whole event trace is the block "page fetch, then the
ticks `secs … 0`" repeated once per observed cycle: the countdown follows
every cycle's join and precedes every next page fetch. -/
theorem runLoop_monitor_blocks (cfg : Config)
    (re4chan retwochen : List Char → List (List (List Char))) (siteID : List Char)
    (secs : Nat) (pageF : Nat → FetchResult) (wenvs : Nat → Nat → WorkerEnv)
    (path : List Char) :
    ∀ fuel cyc fs files evs f fs'',
      runLoop cfg true re4chan retwochen siteID secs pageF wenvs path fuel cyc
        fs files = some (evs, f, fs'') →
      evs = List.flatten (List.replicate fuel
        (RunEvent.pageFetch :: (countdownTicks secs).map RunEvent.tick)) := by
  intro fuel
  induction fuel with
  | zero =>
    intro cyc fs files evs f fs'' h
    rw [runLoop_zero] at h
    injection h with h
    injection h with h1 h2
    rw [← h1]
    rfl
  | succ m ih =>
    intro cyc fs files evs f fs'' h
    rw [runLoop_succ] at h
    cases hc : runCycle cfg true re4chan retwochen siteID (pageF cyc) (wenvs cyc)
        path fs with
    | none => rw [hc] at h; exact absurd h (by simp)
    | some q =>
      obtain ⟨rs, n, fs'⟩ := q
      rw [hc] at h
      dsimp only at h
      rw [if_neg (by simp)] at h
      cases hrec : runLoop cfg true re4chan retwochen siteID secs pageF wenvs path
          m (cyc + 1) fs' (files + n) with
      | none => rw [hrec] at h; exact absurd h (by simp)
      | some q2 =>
        obtain ⟨evs0, f0, fsx⟩ := q2
        rw [hrec] at h
        dsimp only at h
        injection h with h
        injection h with h1 h2
        rw [← h1, ih (cyc + 1) fs' (files + n) evs0 f0 fsx hrec,
          List.replicate_succ, List.flatten_cons, List.cons_append]

/-- C8: when monitoring is off the loop runs exactly one cycle — the trace
is a single page fetch, no countdown ticks — and terminates; when
monitoring is on with interval `secs`, after a cycle's join the loop
displays the full countdown `secs, secs-1, ..., 1, 0` (head `secs`,
descending by one, ending at 0) and only then issues the next cycle's page
fetch. -/
theorem c8_monitor_countdown :
    (∀ (cfg : Config) (re4chan retwochen : List Char → List (List (List Char)))
        (siteID : List Char) (secs : Nat) (pageF : Nat → FetchResult)
        (wenvs : Nat → Nat → WorkerEnv) (path : List Char) (fuel cyc : Nat)
        (fs : List (List Char)) (files : Nat) (rs : List WorkerResult) (n : Nat)
        (fs' : List (List Char)),
      runCycle cfg false re4chan retwochen siteID (pageF cyc) (wenvs cyc) path fs
        = some (rs, n, fs') →
      runLoop cfg false re4chan retwochen siteID secs pageF wenvs path (fuel + 1)
        cyc fs files = some ([RunEvent.pageFetch], files + n, fs')) ∧
    (∀ (cfg : Config) (re4chan retwochen : List Char → List (List (List Char)))
        (siteID : List Char) (secs : Nat) (pageF : Nat → FetchResult)
        (wenvs : Nat → Nat → WorkerEnv) (path : List Char) (g cyc : Nat)
        (fs : List (List Char)) (files : Nat) (rs : List WorkerResult) (n : Nat)
        (fs' : List (List Char)) (evs : List RunEvent) (f : Nat)
        (fs'' : List (List Char)),
      runCycle cfg true re4chan retwochen siteID (pageF cyc) (wenvs cyc) path fs
        = some (rs, n, fs') →
      runLoop cfg true re4chan retwochen siteID secs pageF wenvs path (g + 1)
        (cyc + 1) fs' (files + n) = some (evs, f, fs'') →
      runLoop cfg true re4chan retwochen siteID secs pageF wenvs path (g + 1 + 1)
          cyc fs files =
        some (RunEvent.pageFetch ::
          ((countdownTicks secs).map RunEvent.tick ++ evs), f, fs'') ∧
      evs.head? = some RunEvent.pageFetch) ∧
    (∀ secs : Nat, (countdownTicks secs).head? = some secs ∧
      (countdownTicks secs).getLast? = some 0 ∧
      List.Chain' (fun a b => a = b + 1) (countdownTicks secs) ∧
      countdownTicks secs = (List.range (secs + 1)).reverse) ∧
    (∀ (cfg : Config) (re4chan retwochen : List Char → List (List (List Char)))
        (siteID : List Char) (secs : Nat) (pageF : Nat → FetchResult)
        (wenvs : Nat → Nat → WorkerEnv) (path : List Char) (fuel cyc : Nat)
        (fs : List (List Char)) (files : Nat) (evs : List RunEvent) (f : Nat)
        (fs'' : List (List Char)),
      runLoop cfg true re4chan retwochen siteID secs pageF wenvs path fuel cyc
        fs files = some (evs, f, fs'') →
      evs = List.flatten (List.replicate fuel
        (RunEvent.pageFetch :: (countdownTicks secs).map RunEvent.tick))) := by
  refine ⟨?_, ?_, ?_, ?_⟩
  · intro cfg re4chan retwochen siteID secs pageF wenvs path fuel cyc fs files rs
      n fs' hc
    exact runLoop_single cfg re4chan retwochen siteID secs pageF wenvs path fuel
      cyc fs files rs n fs' hc
  · intro cfg re4chan retwochen siteID secs pageF wenvs path g cyc fs files rs n
      fs' evs f fs'' hc hr
    exact ⟨runLoop_monitor_step cfg re4chan retwochen siteID secs pageF wenvs path
        (g + 1) cyc fs files rs n fs' evs f fs'' hc hr,
      runLoop_head_pageFetch cfg true re4chan retwochen siteID secs pageF wenvs
        path g (cyc + 1) fs' (files + n) evs f fs'' hr⟩
  · intro secs
    exact ⟨countdownTicks_head secs, countdownTicks_last secs,
      countdownTicks_chain secs, countdownTicks_eq_range secs⟩
  · intro cfg re4chan retwochen siteID secs pageF wenvs path fuel cyc fs files
      evs f fs'' h
    exact runLoop_monitor_blocks cfg re4chan retwochen siteID secs pageF wenvs
      path fuel cyc fs files evs f fs'' h

/-- Witness for C8: a trivial page (no links); single-pass mode stops after
one fetch with no ticks; monitor mode with interval 2 inserts the ticks
2, 1, 0 between the first and the second page fetch, and a two-cycle
monitoring trace is exactly two "fetch then countdown" blocks. -/
theorem c8_monitor_countdown_witness :
    runLoop GlobalConfig false reNoMatch reNoMatch "4chan".toList 2 pageAllOk
      wenvsAllOk "p".toList 1 0 [] 0 = some ([RunEvent.pageFetch], 0, []) ∧
    (runLoop GlobalConfig true reNoMatch reNoMatch "4chan".toList 2 pageAllOk
        wenvsAllOk "p".toList 2 0 [] 0 =
      some (RunEvent.pageFetch ::
        ((countdownTicks 2).map RunEvent.tick ++
          [RunEvent.pageFetch, RunEvent.tick 2, RunEvent.tick 1, RunEvent.tick 0]),
        0, []) ∧
      ([RunEvent.pageFetch, RunEvent.tick 2, RunEvent.tick 1,
        RunEvent.tick 0] : List RunEvent).head? = some RunEvent.pageFetch) ∧
    ([RunEvent.pageFetch, RunEvent.tick 2, RunEvent.tick 1, RunEvent.tick 0,
      RunEvent.pageFetch, RunEvent.tick 2, RunEvent.tick 1, RunEvent.tick 0]
        : List RunEvent) =
      List.flatten (List.replicate 2
        (RunEvent.pageFetch :: (countdownTicks 2).map RunEvent.tick)) :=
  ⟨c8_monitor_countdown.1 GlobalConfig reNoMatch reNoMatch "4chan".toList 2
     pageAllOk wenvsAllOk "p".toList 0 0 [] 0 [] 0 [] (by decide),
   c8_monitor_countdown.2.1 GlobalConfig reNoMatch reNoMatch "4chan".toList 2
     pageAllOk wenvsAllOk "p".toList 0 0 [] 0 [] 0 []
     [RunEvent.pageFetch, RunEvent.tick 2, RunEvent.tick 1, RunEvent.tick 0] 0 []
     (by decide) (by decide),
   c8_monitor_countdown.2.2.2 GlobalConfig reNoMatch reNoMatch "4chan".toList 2
     pageAllOk wenvsAllOk "p".toList 2 0 [] 0
     [RunEvent.pageFetch, RunEvent.tick 2, RunEvent.tick 1, RunEvent.tick 0,
      RunEvent.pageFetch, RunEvent.tick 2, RunEvent.tick 1, RunEvent.tick 0] 0 []
     (by decide)⟩

/-- Counterexample for C9: one extraction pass can produce two DISTINCT
asset links (same image id on different boards) whose derived filenames —
the last path segment — coincide, so both workers are handed the same
destination path: distinctness of links does not give distinctness of
filenames. -/
theorem c9_counter_same_filename :
    findImages reTwoSameName reNoMatch "h".toList "4chan".toList =
      ["https://i.4cdn.org/a/123.jpg".toList, "https://i.4cdn.org/b/123.jpg".toList] ∧
    "https://i.4cdn.org/a/123.jpg".toList ≠ "https://i.4cdn.org/b/123.jpg".toList ∧
    lastSegmentL "https://i.4cdn.org/a/123.jpg".toList =
      lastSegmentL "https://i.4cdn.org/b/123.jpg".toList ∧
    pathJoin "p".toList (lastSegmentL "https://i.4cdn.org/a/123.jpg".toList) =
      pathJoin "p".toList (lastSegmentL "https://i.4cdn.org/b/123.jpg".toList) := by
  exact ⟨by decide, by decide, by decide, by decide⟩

/-- C9 (amended): the derived filename is exactly the link's last path
segment, so two links of one pass write to distinct destination paths
precisely when their last path segments differ; links sharing the last
segment (see the counterexample) collide on one path. -/
theorem c9_distinct_names_amended (dir l1 l2 : List Char)
    (h : lastSegmentL l1 ≠ lastSegmentL l2) :
    pathJoin dir (lastSegmentL l1) ≠ pathJoin dir (lastSegmentL l2) := by
  intro he
  exact h (List.append_cancel_left he)

/-- Witness for C9 (amended): links differing in the file id map to
distinct destination paths. -/
theorem c9_distinct_names_amended_witness :
    pathJoin "p".toList (lastSegmentL "https://i.4cdn.org/a/1.jpg".toList) ≠
      pathJoin "p".toList (lastSegmentL "https://i.4cdn.org/a/2.jpg".toList) :=
  c9_distinct_names_amended "p".toList "https://i.4cdn.org/a/1.jpg".toList
    "https://i.4cdn.org/a/2.jpg".toList (by decide)
